import Mathlib

/-!
# google-calendar-to-notion: a shallow embedding

The Go program reads one day of Google Calendar events and mirrors them as
rows of a Notion database.  This file embeds

* `api/notionapi/client.go`  (`EnsureDatabase`, `PutEvents`, `PutEvent`,
  `parseEventBody` and the five section builders, `getDBId`),
* `api/calendarapi/client.go` (`ListEvents`),
* `app/app.go` (`Run`).

Conventions of the embedding.

* Go `string` is `String`; Go `error` is `Option String` (`none` is `nil`).
* A Go slice is a `List`; slice elements that are pointers in Go
  (`[]*calendar.Event`, `[]*calendar.EventAttendee`,
  `[]*calendar.EventAttachment`) are taken to be non-nil, as the JSON decoder
  of the calendar library produces them.  The two pointer fields
  `Event.Start` and `Event.End` are `Option`s: `none` is the nil pointer.
* A Go `map[string]V` is an association list `List (String × V)`; the order of
  the list stands for the (unspecified) iteration order of `range`.
* Remote collaborators (Notion, Google Calendar), the clock and `time.Parse`
  are parameters.  Every remote call is appended, together with its answer,
  to the `World`, and a collaborator may answer depending on the whole `World`
  so far.
* A Go runtime panic is the outcome `Outcome.crash`.
-/

set_option autoImplicit false

namespace GCalNotion

/-! ## Library data: `google.golang.org/api/calendar/v3` -/

/-- The `calendar.EventDateTime` record, restricted to the field the program reads. -/
structure EventDateTime where
  DateTime : String
  deriving DecidableEq

/-- The `calendar.EventAttendee` record, restricted to the fields the program reads. -/
structure EventAttendee where
  DisplayName : String
  Email : String
  Organizer : Bool
  deriving DecidableEq

/-- The `calendar.EventAttachment` record, restricted to the fields the program reads. -/
structure EventAttachment where
  FileUrl : String
  Title : String
  deriving DecidableEq

/-- The `calendar.Event` record, restricted to the fields the program reads.
`Start` and `End` are pointers in Go. -/
structure Event where
  Id : String
  Summary : String
  Description : String
  Location : String
  HangoutLink : String
  Attendees : List EventAttendee
  AttendeesOmitted : Bool
  Attachments : List EventAttachment
  Start : Option EventDateTime
  End : Option EventDateTime
  deriving DecidableEq

/-! ## Library data: `github.com/jomei/notionapi` -/

/-- Library constant `notionapi.ObjectTypeBlock`. -/
def ObjectTypeBlock : String := "block"
/-- Library constant `notionapi.ObjectTypeText`. -/
def ObjectTypeText : String := "text"
/-- Library constant `notionapi.BlockTypeHeading2`. -/
def BlockTypeHeading2 : String := "heading_2"
/-- Library constant `notionapi.BlockTypeParagraph`. -/
def BlockTypeParagraph : String := "paragraph"
/-- Library constant `notionapi.BlockTypeBulletedListItem`. -/
def BlockTypeBulletedListItem : String := "bulleted_list_item"
/-- Library constant `notionapi.BlockTypeFile`. -/
def BlockTypeFile : String := "file"
/-- Library constant `notionapi.FileTypeExternal`. -/
def FileTypeExternal : String := "external"
/-- Library constant `notionapi.PropertyConfigTypeTitle`. -/
def PropertyConfigTypeTitle : String := "title"
/-- Library constant `notionapi.PropertyConfigTypeRichText`. -/
def PropertyConfigTypeRichText : String := "rich_text"
/-- Library constant `notionapi.PropertyConfigTypeDate`. -/
def PropertyConfigTypeDate : String := "date"
/-- Library constant `notionapi.PropertyConfigTypeFormula`. -/
def PropertyConfigTypeFormula : String := "formula"

/-- The `notionapi.Link` record. -/
structure Link where
  Url : String
  deriving DecidableEq

/-- The `notionapi.Text` record; `Link` is a pointer in Go. -/
structure Text where
  Content : String
  Link : Option Link := none
  deriving DecidableEq

/-- The `notionapi.RichText` record, restricted to the fields the program sets.
Fields left out of a Go composite literal hold their zero value. -/
structure RichText where
  Typ : String := ""
  Text : Text
  PlainText : String := ""
  deriving DecidableEq

/-- The `notionapi.BasicBlock` record, restricted to the fields the program sets. -/
structure BasicBlock where
  Object : String
  Typ : String
  deriving DecidableEq

/-- The `notionapi.FileObject` record. -/
structure FileObject where
  URL : String
  deriving DecidableEq

/-- The `notionapi.BlockFile` record; `External` is a pointer in Go. -/
structure BlockFile where
  Caption : List RichText
  Typ : String
  External : Option FileObject
  deriving DecidableEq

/-- The four implementations of the `notionapi.Block` interface the program
builds; the list argument of the first three is the `Text` of the embedded
`Heading`, `Paragraph` and `ListItem` record. -/
inductive Block where
  | Heading2Block (BasicBlock : BasicBlock) (Heading2 : List RichText)
  | ParagraphBlock (BasicBlock : BasicBlock) (Paragraph : List RichText)
  | BulletedListItemBlock (BasicBlock : BasicBlock) (BulletedListItem : List RichText)
  | FileBlock (BasicBlock : BasicBlock) (File : BlockFile)
  deriving DecidableEq

/-- The type `notionapi.Blocks`, a slice of blocks. -/
abbrev Blocks := List Block

/-! ## `api/notionapi/client.go`: the block builder -/

/-- The Go function `parseDescription`. -/
def parseDescription (event : Event) : Blocks :=
  [ Block.Heading2Block
      { Object := ObjectTypeBlock, Typ := BlockTypeHeading2 }
      [ { Text := { Content := "Description" } } ],
    Block.ParagraphBlock
      { Object := ObjectTypeBlock, Typ := BlockTypeParagraph }
      [ { Text := { Content := event.Description } } ] ]

/-- The text of one attendee bullet: the `strings.Builder` of the loop body of
`parseAttendees`; `fmt.Sprintf("%s (%s)", n, m)` is `n ++ " (" ++ m ++ ")"`. -/
def attendeeLine (a : EventAttendee) : String :=
  let sb := ""
  let sb := if a.Organizer then sb ++ "Organizer: " else sb
  if a.DisplayName ≠ "" then
    sb ++ (a.DisplayName ++ " (" ++ a.Email ++ ")")
  else
    sb ++ a.Email

/-- The Go function `parseAttendees`; the `for`/`append` loop is a left fold. -/
def parseAttendees (event : Event) : Blocks :=
  let att : Blocks :=
    [ Block.Heading2Block
        { Object := ObjectTypeBlock, Typ := BlockTypeHeading2 }
        [ { Text := { Content := "Attendees" } } ] ]
  let att : Blocks :=
    if event.AttendeesOmitted then
      att ++ [ Block.ParagraphBlock
                { Object := ObjectTypeBlock, Typ := BlockTypeParagraph }
                [ { Text := { Content := "Attendees omitted..." } } ] ]
    else att
  event.Attendees.foldl
    (fun att a =>
      att ++ [ Block.BulletedListItemBlock
                { Object := ObjectTypeBlock, Typ := BlockTypeBulletedListItem }
                [ { Text := { Content := attendeeLine a } } ] ])
    att

/-- The Go function `parseLocation`. -/
def parseLocation (event : Event) : Blocks :=
  [ Block.Heading2Block
      { Object := ObjectTypeBlock, Typ := BlockTypeHeading2 }
      [ { Text := { Content := "Location" } } ],
    Block.ParagraphBlock
      { Object := ObjectTypeBlock, Typ := BlockTypeParagraph }
      [ { Text := { Content := event.Location } } ] ]

/-- The Go function `parseAttachments`; the `for`/`append` loop is a left fold. -/
def parseAttachments (event : Event) : Blocks :=
  let atch : Blocks :=
    [ Block.Heading2Block
        { Object := ObjectTypeBlock, Typ := BlockTypeHeading2 }
        [ { Text := { Content := "Attachments" } } ] ]
  event.Attachments.foldl
    (fun atch att =>
      let fileObj : FileObject := { URL := att.FileUrl }
      atch ++ [ Block.FileBlock
                 { Object := ObjectTypeBlock, Typ := BlockTypeFile }
                 { Caption := [ { Text := { Content := att.Title } } ],
                   Typ := FileTypeExternal,
                   External := some fileObj } ])
    atch

/-- The Go function `parseMeeting`. -/
def parseMeeting (event : Event) : Blocks :=
  [ Block.Heading2Block
      { Object := ObjectTypeBlock, Typ := BlockTypeHeading2 }
      [ { Text := { Content := "Join Google Meet",
                    Link := some { Url := event.HangoutLink } } } ] ]

/-- The Go function `parseEventBody`: `body` starts as the nil slice and each
populated field appends its section. -/
def parseEventBody (event : Event) : Blocks :=
  let body : Blocks := []
  let body := if event.Description ≠ "" then body ++ parseDescription event else body
  let body := if event.Attendees.length ≠ 0 then body ++ parseAttendees event else body
  let body := if event.HangoutLink ≠ "" then body ++ parseMeeting event else body
  let body := if event.Location ≠ "" then body ++ parseLocation event else body
  let body := if event.Attachments.length ≠ 0 then body ++ parseAttachments event else body
  body

/-! ### Reading a block sequence -/

/-- The contents of the text runs of a heading block, `none` for any other block. -/
def headingText : Block → Option (List String)
  | Block.Heading2Block _ t => some (t.map fun r => r.Text.Content)
  | _ => none

/-- The heading blocks of a block sequence, read in order. -/
def headings (body : Blocks) : List (List String) :=
  body.filterMap headingText

/-- The section a populated field contributes, and nothing for an absent field. -/
def sectionIf (populated : Bool) (blocks : Blocks) : Blocks :=
  if populated then blocks else []

/-- The heading a populated field contributes, and nothing for an absent field. -/
def headingIf (populated : Bool) (name : String) : List (List String) :=
  if populated then [[name]] else []

/-- The file block `parseAttachments` emits for one attachment. -/
def attachmentFile (att : EventAttachment) : Block :=
  Block.FileBlock
    { Object := ObjectTypeBlock, Typ := BlockTypeFile }
    { Caption := [ { Text := { Content := att.Title } } ],
      Typ := FileTypeExternal,
      External := some { URL := att.FileUrl } }

/-- A plain heading block with one text run and no hyperlink. -/
def heading (name : String) : Block :=
  Block.Heading2Block
    { Object := ObjectTypeBlock, Typ := BlockTypeHeading2 }
    [ { Text := { Content := name } } ]

/-- A plain paragraph block with one text run and no hyperlink. -/
def paragraph (content : String) : Block :=
  Block.ParagraphBlock
    { Object := ObjectTypeBlock, Typ := BlockTypeParagraph }
    [ { Text := { Content := content } } ]

/-- A bulleted item with one text run and no hyperlink. -/
def bulleted (content : String) : Block :=
  Block.BulletedListItemBlock
    { Object := ObjectTypeBlock, Typ := BlockTypeBulletedListItem }
    [ { Text := { Content := content } } ]

/-- An event with no field set: the zero value of `calendar.Event`, with
`Start` and `End` records holding the empty string. -/
def Event.blank : Event :=
  { Id := "", Summary := "", Description := "", Location := "", HangoutLink := "",
    Attendees := [], AttendeesOmitted := false, Attachments := [],
    Start := some { DateTime := "" }, End := some { DateTime := "" } }

/-! ## Go maps -/

/-- A Go `map[string]V`: the bindings, listed in the order `range` visits them. -/
abbrev GoMap (V : Type) := List (String × V)

/-- The comma-ok lookup `_, ok := m[k]`. -/
def mapHas {V : Type} : GoMap V → String → Bool
  | [], _ => false
  | (k', _) :: m, k => if k' = k then true else mapHas m k

/-- The lookup `m[k]`, `none` when the key is absent. -/
def mapGet {V : Type} : GoMap V → String → Option V
  | [], _ => none
  | (k', v) :: m, k => if k' = k then some v else mapGet m k

/-- The builtin `delete(m, k)`. -/
def mapDelete {V : Type} : GoMap V → String → GoMap V
  | [], _ => []
  | (k', v) :: m, k => if k' = k then mapDelete m k else (k', v) :: mapDelete m k

/-- The assignment `m[k] = v`: an existing binding is overwritten in place, a
new one is added. -/
def mapSet {V : Type} : GoMap V → String → V → GoMap V
  | [], k, v => [(k, v)]
  | (k', v') :: m, k, v => if k' = k then (k, v) :: m else (k', v') :: mapSet m k v

/-! ## Library data: database schemas, pages, collaborators -/

/-- The implementations of the `notionapi.PropertyConfig` interface: the three
the program builds, the title column, and any other column type a database can
hold.  Each carries its `Type` field. -/
inductive PropertyConfig where
  | FormulaPropertyConfig (Typ : String) (Expression : String)
  | RichTextPropertyConfig (Typ : String)
  | DatePropertyConfig (Typ : String)
  | TitlePropertyConfig (Typ : String)
  | OtherPropertyConfig (Typ : String)
  deriving DecidableEq

/-- The method `GetType` of a property config: its `Type` field. -/
def PropertyConfig.GetType : PropertyConfig → String
  | FormulaPropertyConfig t _ => t
  | RichTextPropertyConfig t => t
  | DatePropertyConfig t => t
  | TitlePropertyConfig t => t
  | OtherPropertyConfig t => t

/-- The `notionapi.Database` record, restricted to its column map. -/
structure Database where
  Properties : GoMap PropertyConfig
  deriving DecidableEq

/-- The `notionapi.DatabaseUpdateRequest` record; a column mapped to `none`
(the nil interface) is a deletion. -/
structure DatabaseUpdateRequest where
  Properties : GoMap (Option PropertyConfig)
  deriving DecidableEq

/-- A `time.Time` value: an instant and the offset of its zone. -/
structure Time where
  unixNano : Int
  offset : Int
  deriving DecidableEq

/-- The `notionapi.DateObject` record; `Start` is a pointer in Go. -/
structure DateObject where
  Start : Option Time
  deriving DecidableEq

/-- The implementations of the `notionapi.Property` interface the program builds. -/
inductive Property where
  | TitleProperty (Title : List RichText)
  | RichTextProperty (RichText : List RichText)
  | DateProperty (Date : DateObject)
  deriving DecidableEq

/-- The `notionapi.Parent` record. -/
structure Parent where
  Typ : String
  DatabaseID : String
  deriving DecidableEq

/-- The `notionapi.PageCreateRequest` record. -/
structure PageCreateRequest where
  Parent : Parent
  Properties : GoMap Property
  Children : Blocks
  deriving DecidableEq

/-- The `calendar.Events` record, restricted to its items. -/
structure Events where
  Items : List Event
  deriving DecidableEq

/-- The answer of a Go call returning `(value, error)`. -/
inductive Reply (α : Type) where
  | ok (value : α)
  | error (err : String)
  deriving DecidableEq

/-- Whether an answer carries an error. -/
def Reply.failed {α : Type} : Reply α → Bool
  | Reply.ok _ => false
  | Reply.error _ => true

/-- The items of a successful list answer, nothing for a failed one. -/
def Reply.items : Reply Events → List Event
  | Reply.ok ev => ev.Items
  | Reply.error _ => []

/-- The two severities the program logs at. -/
inductive Level where
  | Info
  | Warn
  deriving DecidableEq

/-- Everything the program does to the outside: the log lines and the remote
calls, each call with the answer it got, in the order they happen. -/
structure World where
  log : List (Level × String)
  databaseGets : List (String × Reply Database)
  databaseUpdates : List (String × DatabaseUpdateRequest × Option String)
  pageCreates : List (PageCreateRequest × Option String)
  eventsLists : List (String × String × String × Reply Events)
  deriving DecidableEq

/-- The world before the program has done anything. -/
def World.empty : World :=
  { log := [], databaseGets := [], databaseUpdates := [], pageCreates := [], eventsLists := [] }

/-- The call `Logger.Info(msg)`. -/
def World.info (w : World) (msg : String) : World :=
  { w with log := w.log ++ [(Level.Info, msg)] }

/-- The call `Logger.Warn(msg)`. -/
def World.warn (w : World) (msg : String) : World :=
  { w with log := w.log ++ [(Level.Warn, msg)] }

/-- The warnings logged so far. -/
def World.warnings (w : World) : List String :=
  w.log.filterMap fun e => if e.1 = Level.Warn then some e.2 else none

/-- The outcome of running a Go function: a runtime panic, or a return value
together with the world it leaves. -/
inductive Outcome (α : Type) where
  | crash
  | ret (value : α) (w : World)
  deriving DecidableEq

/-- The Notion collaborator, the library client `*notionapi.Client`: the
answers of `Database.Get`, `Database.Update` (error only) and `Page.Create`
(error only), each possibly depending on everything that happened before. -/
structure NotionService where
  DatabaseGet : World → String → Reply Database
  DatabaseUpdate : World → String → DatabaseUpdateRequest → Option String
  PageCreate : World → PageCreateRequest → Option String

/-- The calendar collaborator, `*calendar.Service`: the answer of
`Events.List(cal).TimeMin(min).TimeMax(max).Do()`. -/
structure CalendarService where
  EventsList : World → String → String → String → Reply Events

/-- The ambient library functions: `time.Parse(layout, value)` and the two
clock readings `carbon.SetTimezone(tz).Now().StartOfDay().ToRfc3339String()`
and `carbon.SetTimezone(tz).Now().EndOfDay().ToRfc3339String()`. -/
structure Env where
  timeParse : String → String → Reply Time
  startOfDay : World → String → String
  endOfDay : World → String → String

/-- Library constant `time.RFC3339`. -/
def RFC3339 : String := "2006-01-02T15:04:05Z07:00"

/-! ## `api/notionapi/client.go`: schema and rows -/

/-- The prefix of a string before the first occurrence of `?v`, which is
element 0 of `strings.Split(s, "?v")`. -/
def beforeSep : List Char → List Char
  | [] => []
  | c :: cs => if c = '?' ∧ cs.head? = some 'v' then [] else c :: beforeSep cs

/-- The Go function `getDBId`.  The slice expression
`link[len("https://www.notion.so/"):]` panics when the link is shorter than the
prefix (`none`); the byte slice is taken by characters, which is exact whenever
the first 22 bytes of the link are ASCII. -/
def getDBId (link : String) : Option String :=
  if link.utf8ByteSize < "https://www.notion.so/".utf8ByteSize then none
  else some (String.mk (beforeSep (link.toList.drop "https://www.notion.so/".length)))

/-- The formula of the derived `Time` column. -/
def timeExpression : String :=
  "concat(formatDate(prop(\"Start\"),\"HH:mm\"),\" - \",formatDate(prop(\"End\"),\"HH:mm\"))"

/-- The first loop of `EnsureDatabase` over the required names: a name that is
present is deleted from the fetched column map and skipped; at the first name
that is absent the four configs are set, their names deleted from the column
map, and the loop breaks. -/
def requiredLoop : List String → GoMap PropertyConfig → GoMap (Option PropertyConfig) →
    GoMap PropertyConfig × GoMap (Option PropertyConfig)
  | [], properties, confs => (properties, confs)
  | s :: props, properties, confs =>
    if mapHas properties s then
      requiredLoop props (mapDelete properties s) confs
    else
      let confs := mapSet confs "Time"
        (some (PropertyConfig.FormulaPropertyConfig PropertyConfigTypeFormula timeExpression))
      let properties := mapDelete properties "Time"
      let confs := mapSet confs "Id"
        (some (PropertyConfig.RichTextPropertyConfig PropertyConfigTypeRichText))
      let properties := mapDelete properties "Id"
      let confs := mapSet confs "Start"
        (some (PropertyConfig.DatePropertyConfig PropertyConfigTypeDate))
      let properties := mapDelete properties "Start"
      let confs := mapSet confs "End"
        (some (PropertyConfig.DatePropertyConfig PropertyConfigTypeDate))
      let properties := mapDelete properties "End"
      (properties, confs)

/-- The second loop of `EnsureDatabase` over the columns left in the map: a
column of type title becomes the title name, any other column is mapped to the
nil config. -/
def titleLoop : GoMap PropertyConfig → String → GoMap (Option PropertyConfig) →
    String × GoMap (Option PropertyConfig)
  | [], title, confs => (title, confs)
  | (k, v) :: properties, title, confs =>
    if v.GetType = PropertyConfigTypeTitle then titleLoop properties k confs
    else titleLoop properties title (mapSet confs k none)

namespace notionapi

/-- The `Config` record of package `notionapi`. -/
structure Config where
  DBLink : String

set_option linter.dupNamespace false in
/-- The `Client` record of package `notionapi`; its logger writes to the world. -/
structure Client where
  Config : Config
  Client : NotionService

/-- The Go method `Client.EnsureDatabase`, returning `(title, err)`. -/
def Client.EnsureDatabase (c : notionapi.Client) (w : World) : Outcome (String × Option String) :=
  let w := w.info "ensuring database"
  match getDBId c.Config.DBLink with
  | none => Outcome.crash
  | some Id =>
    let r := c.Client.DatabaseGet w Id
    let w := { w with databaseGets := w.databaseGets ++ [(Id, r)] }
    match r with
    | Reply.error err =>
      Outcome.ret ("", some ("fetching DB with id " ++ Id ++ ": " ++ err)) w
    | Reply.ok DB =>
      let props := ["Task", "Id", "Start", "End"]
      let confs : GoMap (Option PropertyConfig) := []
      let afterRequired := requiredLoop props DB.Properties confs
      let afterTitle := titleLoop afterRequired.1 "" afterRequired.2
      let title := afterTitle.1
      let confs := afterTitle.2
      if confs.length = 0 then
        Outcome.ret ("", none) w
      else
        let req : DatabaseUpdateRequest := { Properties := confs }
        let e := c.Client.DatabaseUpdate w Id req
        let w := { w with databaseUpdates := w.databaseUpdates ++ [(Id, req, e)] }
        match e with
        | some err => Outcome.ret ("", some ("update database: " ++ err)) w
        | none => Outcome.ret (title, none) w

/-- The row `PutEvent` inserts for an event whose timestamps parsed: the map
literal is built by successive assignment, so a title name equal to a later key
is overwritten. -/
def pageRequest (Id : String) (title : String) (event : Event) (start finish : Time) :
    PageCreateRequest :=
  let properties : GoMap Property := []
  let properties := mapSet properties title
    (Property.TitleProperty [ { Text := { Content := event.Summary } } ])
  let properties := mapSet properties "Id"
    (Property.RichTextProperty
      [ { Typ := ObjectTypeText, Text := { Content := event.Id }, PlainText := event.Id } ])
  let properties := mapSet properties "Start" (Property.DateProperty { Start := some start })
  let properties := mapSet properties "End" (Property.DateProperty { Start := some finish })
  { Parent := { Typ := "database_id", DatabaseID := Id },
    Properties := properties,
    Children := parseEventBody event }

/-- The Go method `Client.PutEvent`, returning `err`.  Reading `DateTime`
through a nil `Start` or `End` pointer panics; the deferred function prefixes
a non-nil error with `put event: `. -/
def Client.PutEvent (env : Env) (c : notionapi.Client) (title : String) (event : Event) (w : World) :
    Outcome (Option String) :=
  let w := w.info ("put event: " ++ event.Summary)
  match event.Start with
  | none => Outcome.crash
  | some startRec =>
    match env.timeParse RFC3339 startRec.DateTime with
    | Reply.error err =>
      Outcome.ret (some ("put event: " ++ ("convert start time to RFC3339: " ++ err))) w
    | Reply.ok start =>
      match event.End with
      | none => Outcome.crash
      | some endRec =>
        match env.timeParse RFC3339 endRec.DateTime with
        | Reply.error err =>
          Outcome.ret (some ("put event: " ++ ("convert end time to RFC3339: " ++ err))) w
        | Reply.ok finish =>
          match getDBId c.Config.DBLink with
          | none => Outcome.crash
          | some Id =>
            let req := pageRequest Id title event start finish
            let e := c.Client.PageCreate w req
            let w := { w with pageCreates := w.pageCreates ++ [(req, e)] }
            match e with
            | some err => Outcome.ret (some ("put event: " ++ err)) w
            | none => Outcome.ret none w

/-- The body of `PutEvents` after its first log line: one unit of work per
event, `PutEvent` followed by a warning when it returned an error.  The Go code
runs the units as goroutines and waits for all of them; here they run one
after the other in list order, which fixes one schedule.  A panic in any unit
ends the process. -/
def Client.putAll (env : Env) (c : notionapi.Client) (title : String) : List Event → World → Outcome Unit
  | [], w => Outcome.ret () w
  | event :: events, w =>
    match c.PutEvent env title event w with
    | Outcome.crash => Outcome.crash
    | Outcome.ret (some err) w => c.putAll env title events (w.warn ("put events: " ++ err))
    | Outcome.ret none w => c.putAll env title events w

/-- The Go method `Client.PutEvents`. -/
def Client.PutEvents (env : Env) (c : notionapi.Client) (title : String) (events : List Event)
    (w : World) : Outcome Unit :=
  c.putAll env title events (w.info "putting events")

end notionapi

/-! ## `api/calendarapi/client.go` -/

namespace calendarapi

/-- The `Config` record of package `calendarapi`. -/
structure Config where
  TimeZone : String
  Calendars : List String

/-- The `Client` record of package `calendarapi`; its logger writes to the world. -/
structure Client where
  Config : Config
  CalendarClient : CalendarService

/-- The loop of `ListEvents` over the configured calendars, returning
`(events, err)`: a failed query returns at once with no events. -/
def Client.listLoop (c : calendarapi.Client) (morning night : String) :
    List String → List Event → World → (List Event × Option String) × World
  | [], events, w => ((events, none), w)
  | cal :: cals, events, w =>
    let r := c.CalendarClient.EventsList w cal morning night
    let w := { w with eventsLists := w.eventsLists ++ [(cal, morning, night, r)] }
    match r with
    | Reply.error err => (([], some err), w)
    | Reply.ok ev => c.listLoop morning night cals (events ++ ev.Items) w

/-- The Go method `Client.ListEvents`, returning `(events, err)`; the deferred
function prefixes a non-nil error. -/
def Client.ListEvents (env : Env) (c : calendarapi.Client) (w : World) :
    (List Event × Option String) × World :=
  let morning := env.startOfDay w c.Config.TimeZone
  let night := env.endOfDay w c.Config.TimeZone
  match c.listLoop morning night c.Config.Calendars [] w with
  | ((events, some err), w) => ((events, some ("list event from calendars: " ++ err)), w)
  | ((events, none), w) => ((events, none), w)

end calendarapi

/-! ## `app/app.go` -/

namespace app

/-- The `App` record; its logger writes to the world. -/
structure App where
  CalendarAPI : calendarapi.Client
  NotionAPI : notionapi.Client

/-- The Go method `App.Run`, returning `err`; the deferred `stopped` line is
logged on the last return only, where it was registered. -/
def App.Run (env : Env) (a : App) (w : World) : Outcome (Option String) :=
  let w := w.info "running"
  match a.NotionAPI.EnsureDatabase w with
  | Outcome.crash => Outcome.crash
  | Outcome.ret (_, some err) w => Outcome.ret (some err) w
  | Outcome.ret (title, none) w =>
    match a.CalendarAPI.ListEvents env w with
    | ((_, some err), w) => Outcome.ret (some err) w
    | ((events, none), w) =>
      match a.NotionAPI.PutEvents env title events w with
      | Outcome.crash => Outcome.crash
      | Outcome.ret _ w => Outcome.ret none (w.info "stopped")

end app

/-- The four required column names, in the order `EnsureDatabase` checks them. -/
def requiredProps : List String := ["Task", "Id", "Start", "End"]

/-- The names `EnsureDatabase` removes from the fetched column map before it
looks for the title column, once a required column is missing. -/
def reservedNames : List String := ["Task", "Time", "Id", "Start", "End"]

/-! ## Concrete inputs -/

/-- A database link of the usual shape; its id is `abc`. -/
def sampleLink : String := "https://www.notion.so/abc?v=1"

/-- A Notion collaborator that answers every schema fetch with `DB` and accepts
every update and every insert. -/
def quietNotion (DB : Database) : NotionService :=
  { DatabaseGet := fun _ _ => Reply.ok DB,
    DatabaseUpdate := fun _ _ _ => none,
    PageCreate := fun _ _ => none }

/-- A client for `sampleLink` talking to `quietNotion DB`. -/
def sampleClient (DB : Database) : notionapi.Client :=
  { Config := { DBLink := sampleLink }, Client := quietNotion DB }

/-- A table holding the four required columns and one more, `Notes`. -/
def completeWithNotes : Database :=
  { Properties :=
      [ ("Task", PropertyConfig.TitlePropertyConfig PropertyConfigTypeTitle),
        ("Id", PropertyConfig.RichTextPropertyConfig PropertyConfigTypeRichText),
        ("Start", PropertyConfig.DatePropertyConfig PropertyConfigTypeDate),
        ("End", PropertyConfig.DatePropertyConfig PropertyConfigTypeDate),
        ("Notes", PropertyConfig.RichTextPropertyConfig PropertyConfigTypeRichText) ] }

/-- A table holding exactly the four required columns. -/
def completeExactly : Database :=
  { Properties :=
      [ ("Task", PropertyConfig.TitlePropertyConfig PropertyConfigTypeTitle),
        ("Id", PropertyConfig.RichTextPropertyConfig PropertyConfigTypeRichText),
        ("Start", PropertyConfig.DatePropertyConfig PropertyConfigTypeDate),
        ("End", PropertyConfig.DatePropertyConfig PropertyConfigTypeDate) ] }

/-- A fresh table: only the title column, under the name `Name`. -/
def nameOnly : Database :=
  { Properties := [ ("Name", PropertyConfig.TitlePropertyConfig PropertyConfigTypeTitle) ] }

/-- A table whose title column is `Name`, with a pre-existing text column `Id`
and a pre-existing number column `Score`. -/
def nameIdScore : Database :=
  { Properties :=
      [ ("Name", PropertyConfig.TitlePropertyConfig PropertyConfigTypeTitle),
        ("Id", PropertyConfig.RichTextPropertyConfig PropertyConfigTypeRichText),
        ("Score", PropertyConfig.OtherPropertyConfig "number") ] }

/-- A table whose title column is named `Task`, lacking the `Id` column. -/
def taskTitled : Database :=
  { Properties :=
      [ ("Task", PropertyConfig.TitlePropertyConfig PropertyConfigTypeTitle),
        ("Start", PropertyConfig.DatePropertyConfig PropertyConfigTypeDate),
        ("End", PropertyConfig.DatePropertyConfig PropertyConfigTypeDate) ] }

/-- The four configs `EnsureDatabase` sets when a required column is missing. -/
def baselineConfs : GoMap (Option PropertyConfig) :=
  [ ("Time", some (PropertyConfig.FormulaPropertyConfig PropertyConfigTypeFormula timeExpression)),
    ("Id", some (PropertyConfig.RichTextPropertyConfig PropertyConfigTypeRichText)),
    ("Start", some (PropertyConfig.DatePropertyConfig PropertyConfigTypeDate)),
    ("End", some (PropertyConfig.DatePropertyConfig PropertyConfigTypeDate)) ]

/-- A `time.Parse` that accepts two timestamps of 1 May 2024 and rejects every
other string. -/
def sampleEnv : Env :=
  { timeParse := fun _ value =>
      if value = "2024-05-01T09:00:00Z" then Reply.ok { unixNano := 1714554000000000000, offset := 0 }
      else if value = "2024-05-01T10:00:00Z" then
        Reply.ok { unixNano := 1714557600000000000, offset := 0 }
      else Reply.error "parsing time",
    startOfDay := fun _ _ => "2024-05-01T00:00:00Z",
    endOfDay := fun _ _ => "2024-05-01T23:59:59Z" }

/-- A timed event from nine to ten. -/
def meeting : Event :=
  { Event.blank with
    Id := "evt-1", Summary := "Standup",
    Start := some { DateTime := "2024-05-01T09:00:00Z" },
    End := some { DateTime := "2024-05-01T10:00:00Z" } }

/-- The same event with a start timestamp that is not RFC3339. -/
def badStart : Event :=
  { meeting with Id := "evt-2", Start := some { DateTime := "tomorrow" } }

/-- An event without `Start` and `End` records, as the calendar delivers a
cancelled instance of a recurring event: only its id is guaranteed. -/
def cancelledInstance : Event :=
  { Event.blank with Id := "evt-3", Start := none, End := none }

/-- A calendar client with one source, answering every query with `items`. -/
def sampleCalendar (items : List Event) : calendarapi.Client :=
  { Config := { TimeZone := "UTC", Calendars := ["primary"] },
    CalendarClient := { EventsList := fun _ _ _ _ => Reply.ok { Items := items } } }

/-- The application wired to `sampleClient DB` and `sampleCalendar items`. -/
def sampleApp (DB : Database) (items : List Event) : app.App :=
  { CalendarAPI := sampleCalendar items, NotionAPI := sampleClient DB }

/-! ## Reading a run -/

/-- The two parsed timestamps of an event, when both records are present and
both strings parse. -/
def parsedTimes (env : Env) (event : Event) : Option (Time × Time) :=
  match event.Start, event.End with
  | some startRec, some endRec =>
    match env.timeParse RFC3339 startRec.DateTime, env.timeParse RFC3339 endRec.DateTime with
    | Reply.ok start, Reply.ok finish => some (start, finish)
    | _, _ => none
  | _, _ => none

/-- The row-insert requests issued so far. -/
def World.inserts (w : World) : List PageCreateRequest :=
  w.pageCreates.map Prod.fst

/-- The number of row inserts so far that were answered with an error. -/
def World.failedInserts (w : World) : Nat :=
  (w.pageCreates.filter fun p => p.2.isSome).length

/-- The heading block of the meeting-link section: one text run `Join Google
Meet` carrying a hyperlink to `url`. -/
def meetingHeading (url : String) : Block :=
  Block.Heading2Block
    { Object := ObjectTypeBlock, Typ := BlockTypeHeading2 }
    [ { Text := { Content := "Join Google Meet", Link := some { Url := url } } } ]

/-- An event whose only populated optional field is the description `D`. -/
def describedOnly : Event :=
  { Event.blank with Description := "D" }

/-- A table whose title column is named `Time`, with an `Id` and an `End`
column; `Task` and `Start` are missing. -/
def timeTitled : Database :=
  { Properties :=
      [ ("Time", PropertyConfig.TitlePropertyConfig PropertyConfigTypeTitle),
        ("Id", PropertyConfig.RichTextPropertyConfig PropertyConfigTypeRichText),
        ("End", PropertyConfig.DatePropertyConfig PropertyConfigTypeDate) ] }

/-- A calendar service that knows two sources, `work` holding `meeting` and
`home` holding `badStart`, and fails for any other source. -/
def twoSources : CalendarService :=
  { EventsList := fun _ cal _ _ =>
      if cal = "work" then Reply.ok { Items := [meeting] }
      else if cal = "home" then Reply.ok { Items := [badStart] }
      else Reply.error "not found" }

/-- A calendar client over `twoSources` with the given source list. -/
def sourcesClient (calendars : List String) : calendarapi.Client :=
  { Config := { TimeZone := "UTC", Calendars := calendars }, CalendarClient := twoSources }

/-- The world after further calendar queries, given with their answers, have
been appended to the trace. -/
def World.withQueries (w : World) (entries : List (String × String × String × Reply Events)) :
    World :=
  { w with eventsLists := w.eventsLists ++ entries }

/-- The trace entries of querying the first calendars of `cals`, one per
answer, with the time window `morning`, `night`. -/
def queryEntries (morning night : String) (cals : List String)
    (answers : List (Reply Events)) : List (String × String × String × Reply Events) :=
  (List.zip cals answers).map fun p => (p.1, morning, night, p.2)

/-! ## The block builder: theorems -/

theorem foldl_append_singleton {α β : Type} (f : α → β) (l : List α) (init : List β) :
    l.foldl (fun acc a => acc ++ [f a]) init = init ++ l.map f := by
  induction l generalizing init with
  | nil => simp
  | cons a l ih => simp [ih]

theorem attendeeLine_eq (a : EventAttendee) :
    attendeeLine a =
      (if a.Organizer then "Organizer: " else "") ++
        (if a.DisplayName ≠ "" then a.DisplayName ++ " (" ++ a.Email ++ ")" else a.Email) := by
  unfold attendeeLine
  cases a.Organizer <;> by_cases h : a.DisplayName = "" <;> simp [h]

theorem parseAttendees_map (event : Event) :
    parseAttendees event =
      heading "Attendees" ::
        ((if event.AttendeesOmitted then [paragraph "Attendees omitted..."] else []) ++
          event.Attendees.map fun a => bulleted (attendeeLine a)) := by
  unfold parseAttendees
  simp only []
  rw [foldl_append_singleton (fun a => Block.BulletedListItemBlock
        { Object := ObjectTypeBlock, Typ := BlockTypeBulletedListItem }
        [ { Text := { Content := attendeeLine a } } ])]
  cases event.AttendeesOmitted <;> simp [heading, paragraph, bulleted]

theorem parseAttachments_map (event : Event) :
    parseAttachments event = heading "Attachments" :: event.Attachments.map attachmentFile := by
  unfold parseAttachments
  simp only []
  rw [foldl_append_singleton (fun att : EventAttachment => Block.FileBlock
        { Object := ObjectTypeBlock, Typ := BlockTypeFile }
        { Caption := [ { Text := { Content := att.Title } } ],
          Typ := FileTypeExternal,
          External := some { URL := att.FileUrl } })]
  simp [heading, attachmentFile]

theorem headings_append (a b : Blocks) : headings (a ++ b) = headings a ++ headings b := by
  simp [headings, List.filterMap_append]

theorem headings_map_bulleted (l : List EventAttendee) :
    headings (l.map fun a => bulleted (attendeeLine a)) = [] := by
  induction l with
  | nil => rfl
  | cons a l ih => simp [headings, bulleted, headingText]

theorem headings_map_attachmentFile (l : List EventAttachment) :
    headings (l.map attachmentFile) = [] := by
  induction l with
  | nil => rfl
  | cons a l ih => simp [headings, attachmentFile, headingText]

theorem headings_parseAttendees (event : Event) :
    headings (parseAttendees event) = [["Attendees"]] := by
  rw [parseAttendees_map]
  have h : headings (heading "Attendees" ::
      ((if event.AttendeesOmitted then [paragraph "Attendees omitted..."] else []) ++
        event.Attendees.map fun a => bulleted (attendeeLine a))) =
      headings [heading "Attendees"] ++
        (headings (if event.AttendeesOmitted then [paragraph "Attendees omitted..."] else []) ++
          headings (event.Attendees.map fun a => bulleted (attendeeLine a))) := by
    rw [← headings_append, ← headings_append]; rfl
  rw [h, headings_map_bulleted]
  cases event.AttendeesOmitted <;> simp [headings, heading, paragraph, headingText]

theorem headings_parseAttachments (event : Event) :
    headings (parseAttachments event) = [["Attachments"]] := by
  rw [parseAttachments_map]
  have h : headings (heading "Attachments" :: event.Attachments.map attachmentFile) =
      headings [heading "Attachments"] ++ headings (event.Attachments.map attachmentFile) := by
    rw [← headings_append]; rfl
  rw [h, headings_map_attachmentFile]
  simp [headings, heading, headingText]

theorem parseEventBody_concat (event : Event) :
    parseEventBody event =
      sectionIf (event.Description ≠ "") (parseDescription event) ++
      sectionIf (event.Attendees ≠ []) (parseAttendees event) ++
      sectionIf (event.HangoutLink ≠ "") (parseMeeting event) ++
      sectionIf (event.Location ≠ "") (parseLocation event) ++
      sectionIf (event.Attachments ≠ []) (parseAttachments event) := by
  unfold parseEventBody sectionIf
  by_cases h1 : event.Description = "" <;> by_cases h2 : event.Attendees = [] <;>
    by_cases h3 : event.HangoutLink = "" <;> by_cases h4 : event.Location = "" <;>
    by_cases h5 : event.Attachments = [] <;> simp [h1, h2, h3, h4, h5]

/-! ## Go maps: lemmas -/

theorem mapGet_mapSet_self {V : Type} (m : GoMap V) (k : String) (v : V) :
    mapGet (mapSet m k v) k = some v := by
  induction m with
  | nil => simp [mapSet, mapGet]
  | cons p m ih =>
    obtain ⟨k', v'⟩ := p
    by_cases h : k' = k <;> simp [mapSet, mapGet, h, ih]

theorem mapGet_mapSet_ne {V : Type} (m : GoMap V) (k k' : String) (v : V) (h : k ≠ k') :
    mapGet (mapSet m k v) k' = mapGet m k' := by
  induction m with
  | nil => simp [mapSet, mapGet, h]
  | cons p m ih =>
    obtain ⟨k'', v''⟩ := p
    by_cases h1 : k'' = k
    · subst h1; simp [mapSet, mapGet, h]
    · by_cases h2 : k'' = k'
      · subst h2; simp [mapSet, mapGet, h1]
      · simp [mapSet, mapGet, h1, h2, ih]

theorem mapSet_ne_nil {V : Type} (m : GoMap V) (k : String) (v : V) : mapSet m k v ≠ [] := by
  cases m with
  | nil => simp [mapSet]
  | cons p m =>
    obtain ⟨k', v'⟩ := p
    by_cases h : k' = k <;> simp [mapSet, h]

theorem mem_mapDelete {V : Type} (m : GoMap V) (k : String) (p : String × V) :
    p ∈ mapDelete m k ↔ p ∈ m ∧ p.1 ≠ k := by
  induction m with
  | nil => simp [mapDelete]
  | cons q m ih =>
    obtain ⟨k', v'⟩ := q
    by_cases h : k' = k
    · subst h
      simp only [mapDelete, if_true, ih, List.mem_cons]
      constructor
      · rintro ⟨hm, hne⟩; exact ⟨Or.inr hm, hne⟩
      · rintro ⟨hm | hm, hne⟩
        · subst hm; exact absurd rfl hne
        · exact ⟨hm, hne⟩
    · simp only [mapDelete, h, if_false, List.mem_cons, ih]
      constructor
      · rintro (hm | ⟨hm, hne⟩)
        · subst hm; exact ⟨Or.inl rfl, h⟩
        · exact ⟨Or.inr hm, hne⟩
      · rintro ⟨hm | hm, hne⟩
        · exact Or.inl hm
        · exact Or.inr ⟨hm, hne⟩

theorem mapHas_eq_true_iff {V : Type} (m : GoMap V) (k : String) :
    mapHas m k = true ↔ ∃ v, (k, v) ∈ m := by
  induction m with
  | nil => simp [mapHas]
  | cons q m ih =>
    obtain ⟨k', v'⟩ := q
    by_cases h : k' = k
    · subst h; simp [mapHas]
    · simp only [mapHas, h, if_false, ih, List.mem_cons, Prod.mk.injEq]
      constructor
      · rintro ⟨v, hv⟩; exact ⟨v, Or.inr hv⟩
      · rintro ⟨v, hv | hv⟩
        · exact absurd hv.1.symm h
        · exact ⟨v, hv⟩

theorem mapHas_mapDelete_ne {V : Type} (m : GoMap V) (a b : String) (h : a ≠ b) :
    mapHas (mapDelete m a) b = mapHas m b := by
  induction m with
  | nil => simp [mapDelete]
  | cons q m ih =>
    obtain ⟨k', v'⟩ := q
    by_cases h1 : k' = a
    · subst h1; simp [mapDelete, mapHas, h, ih]
    · by_cases h2 : k' = b
      · subst h2; simp [mapDelete, mapHas, h1]
      · simp [mapDelete, mapHas, h1, h2, ih]

/-- C1: `parseEventBody` returns the description, attendees, meeting-link,
location and attachments sections concatenated in this order, an absent field
contributing no block; the headings of the result, read in order, are the
headings of the populated fields, a subsequence of the five section headings;
an event with no populated optional field yields the empty sequence. -/
theorem parseEventBody_sections_in_fixed_order (event : Event) :
    parseEventBody event =
        sectionIf (event.Description ≠ "") (parseDescription event) ++
        sectionIf (event.Attendees ≠ []) (parseAttendees event) ++
        sectionIf (event.HangoutLink ≠ "") (parseMeeting event) ++
        sectionIf (event.Location ≠ "") (parseLocation event) ++
        sectionIf (event.Attachments ≠ []) (parseAttachments event)
    ∧ headings (parseEventBody event) =
        headingIf (event.Description ≠ "") "Description" ++
        headingIf (event.Attendees ≠ []) "Attendees" ++
        headingIf (event.HangoutLink ≠ "") "Join Google Meet" ++
        headingIf (event.Location ≠ "") "Location" ++
        headingIf (event.Attachments ≠ []) "Attachments"
    ∧ List.Sublist (headings (parseEventBody event))
        [["Description"], ["Attendees"], ["Join Google Meet"], ["Location"], ["Attachments"]]
    ∧ (∀ (id summary : String) (omitted : Bool) (start finish : Option EventDateTime),
        parseEventBody
          { Id := id, Summary := summary, Description := "", Location := "", HangoutLink := "",
            Attendees := [], AttendeesOmitted := omitted, Attachments := [],
            Start := start, End := finish } = []) := by
  have hh : headings (parseEventBody event) =
      headingIf (event.Description ≠ "") "Description" ++
      headingIf (event.Attendees ≠ []) "Attendees" ++
      headingIf (event.HangoutLink ≠ "") "Join Google Meet" ++
      headingIf (event.Location ≠ "") "Location" ++
      headingIf (event.Attachments ≠ []) "Attachments" := by
    rw [parseEventBody_concat]
    simp only [headings_append]
    have e1 : headings (sectionIf (event.Description ≠ "") (parseDescription event)) =
        headingIf (event.Description ≠ "") "Description" := by
      by_cases h : event.Description = "" <;>
        simp [sectionIf, headingIf, h, headings, parseDescription, headingText]
    have e2 : headings (sectionIf (event.Attendees ≠ []) (parseAttendees event)) =
        headingIf (event.Attendees ≠ []) "Attendees" := by
      by_cases h : event.Attendees = []
      · simp [sectionIf, headingIf, h, headings]
      · simp [sectionIf, headingIf, h, headings_parseAttendees]
    have e3 : headings (sectionIf (event.HangoutLink ≠ "") (parseMeeting event)) =
        headingIf (event.HangoutLink ≠ "") "Join Google Meet" := by
      by_cases h : event.HangoutLink = "" <;>
        simp [sectionIf, headingIf, h, headings, parseMeeting, headingText]
    have e4 : headings (sectionIf (event.Location ≠ "") (parseLocation event)) =
        headingIf (event.Location ≠ "") "Location" := by
      by_cases h : event.Location = "" <;>
        simp [sectionIf, headingIf, h, headings, parseLocation, headingText]
    have e5 : headings (sectionIf (event.Attachments ≠ []) (parseAttachments event)) =
        headingIf (event.Attachments ≠ []) "Attachments" := by
      by_cases h : event.Attachments = []
      · simp [sectionIf, headingIf, h, headings]
      · simp [sectionIf, headingIf, h, headings_parseAttachments]
    rw [e1, e2, e3, e4, e5]
  refine ⟨parseEventBody_concat event, hh, ?_, ?_⟩
  · rw [hh]
    by_cases h1 : event.Description = "" <;> by_cases h2 : event.Attendees = [] <;>
      by_cases h3 : event.HangoutLink = "" <;> by_cases h4 : event.Location = "" <;>
      by_cases h5 : event.Attachments = [] <;>
      simp only [headingIf, h1, h2, h3, h4, h5, ne_eq, not_true_eq_false, not_false_eq_true,
        decide_True, decide_False, if_true, if_false, List.append_nil, List.nil_append,
        List.cons_append, Bool.false_eq_true] <;> decide
  · intro id summary omitted start finish
    simp [parseEventBody]

/-- C7: the attendees section is the heading `Attendees`, then one explanatory
paragraph exactly when `AttendeesOmitted` is set, then one bulleted item per
attendee in list order, whose text is `Organizer: ` (only for the organizer)
followed by `DisplayName (email)` when the display name is non-empty and by the
bare email otherwise; organizer A <a@x.com> and anonymous b@x.com give the
bullets `Organizer: A (a@x.com)` and `b@x.com` after the heading. -/
theorem parseAttendees_heading_note_bullets (event : Event) :
    parseAttendees event =
        heading "Attendees" ::
          ((if event.AttendeesOmitted then [paragraph "Attendees omitted..."] else []) ++
            event.Attendees.map fun a =>
              bulleted
                ((if a.Organizer then "Organizer: " else "") ++
                  (if a.DisplayName ≠ "" then a.DisplayName ++ " (" ++ a.Email ++ ")"
                   else a.Email)))
    ∧ parseAttendees
        { event with
          AttendeesOmitted := false,
          Attendees := [ { DisplayName := "A", Email := "a@x.com", Organizer := true },
                         { DisplayName := "", Email := "b@x.com", Organizer := false } ] } =
        [ heading "Attendees", bulleted "Organizer: A (a@x.com)", bulleted "b@x.com" ] := by
  constructor
  · rw [parseAttendees_map]
    simp only [attendeeLine_eq]
  · rw [parseAttendees_map]
    simp [attendeeLine_eq]

/-- C10: for an event whose only populated optional field is a non-empty
description, `parseEventBody` returns exactly two blocks: the heading
`Description`, then a paragraph whose single text run is the description
unchanged, with no hyperlink. -/
theorem parseEventBody_description_only (event : Event)
    (hD : event.Description ≠ "") (hA : event.Attendees = []) (hM : event.HangoutLink = "")
    (hL : event.Location = "") (hF : event.Attachments = []) :
    parseEventBody event =
      [ Block.Heading2Block { Object := ObjectTypeBlock, Typ := BlockTypeHeading2 }
          [ { Typ := "", Text := { Content := "Description", Link := none }, PlainText := "" } ],
        Block.ParagraphBlock { Object := ObjectTypeBlock, Typ := BlockTypeParagraph }
          [ { Typ := "", Text := { Content := event.Description, Link := none },
              PlainText := "" } ] ] := by
  simp [parseEventBody, hD, hA, hM, hL, hF, parseDescription, ObjectTypeBlock,
    BlockTypeHeading2, BlockTypeParagraph]

/-- Witness for C10: the event whose only populated field is the description `D`. -/
theorem parseEventBody_description_only_witness :
    ({ Event.blank with Description := "D" } : Event).Description ≠ "" ∧
    parseEventBody { Event.blank with Description := "D" } =
      [ Block.Heading2Block { Object := ObjectTypeBlock, Typ := BlockTypeHeading2 }
          [ { Typ := "", Text := { Content := "Description", Link := none }, PlainText := "" } ],
        Block.ParagraphBlock { Object := ObjectTypeBlock, Typ := BlockTypeParagraph }
          [ { Typ := "", Text := { Content := "D", Link := none }, PlainText := "" } ] ] :=
  ⟨by decide,
    parseEventBody_description_only { Event.blank with Description := "D" }
      (by decide) rfl rfl rfl rfl⟩

/-! ## The schema ensurer: lemmas -/

theorem titleLoop_confs_ne_nil (properties : GoMap PropertyConfig) (title : String)
    (confs : GoMap (Option PropertyConfig)) (h : confs ≠ []) :
    (titleLoop properties title confs).2 ≠ [] := by
  induction properties generalizing title confs with
  | nil => simpa [titleLoop] using h
  | cons p properties ih =>
    obtain ⟨k, v⟩ := p
    by_cases hv : v.GetType = PropertyConfigTypeTitle
    · simpa [titleLoop, hv] using ih k confs h
    · simpa [titleLoop, hv] using ih title (mapSet confs k none) (mapSet_ne_nil _ _ _)

theorem titleLoop_all_title (properties : GoMap PropertyConfig) (title : String)
    (confs : GoMap (Option PropertyConfig))
    (h : ∀ p ∈ properties, p.2.GetType = PropertyConfigTypeTitle) :
    (titleLoop properties title confs).2 = confs := by
  induction properties generalizing title with
  | nil => simp [titleLoop]
  | cons p properties ih =>
    obtain ⟨k, v⟩ := p
    have hv : v.GetType = PropertyConfigTypeTitle := h (k, v) (List.mem_cons_self _ _)
    simpa [titleLoop, hv] using ih k fun q hq => h q (List.mem_cons_of_mem _ hq)

theorem titleLoop_some_other (properties : GoMap PropertyConfig) (title : String)
    (confs : GoMap (Option PropertyConfig))
    (h : ∃ p ∈ properties, p.2.GetType ≠ PropertyConfigTypeTitle) :
    (titleLoop properties title confs).2 ≠ [] := by
  induction properties generalizing title confs with
  | nil => simp at h
  | cons p properties ih =>
    obtain ⟨k, v⟩ := p
    by_cases hv : v.GetType = PropertyConfigTypeTitle
    · have h2 : ∃ q ∈ properties, q.2.GetType ≠ PropertyConfigTypeTitle := by
        obtain ⟨q, hq, hne⟩ := h
        rcases List.mem_cons.mp hq with rfl | hq
        · exact absurd hv hne
        · exact ⟨q, hq, hne⟩
      simpa [titleLoop, hv] using ih k confs h2
    · simpa [titleLoop, hv] using
        titleLoop_confs_ne_nil properties title (mapSet confs k none) (mapSet_ne_nil _ _ _)

theorem titleLoop_get_kept (properties : GoMap PropertyConfig) (title : String)
    (confs : GoMap (Option PropertyConfig)) (k : String)
    (h : ∀ v, (k, v) ∈ properties → v.GetType = PropertyConfigTypeTitle) :
    mapGet (titleLoop properties title confs).2 k = mapGet confs k := by
  induction properties generalizing title confs with
  | nil => simp [titleLoop]
  | cons p properties ih =>
    obtain ⟨k', v'⟩ := p
    have h2 : ∀ v, (k, v) ∈ properties → v.GetType = PropertyConfigTypeTitle :=
      fun v hv => h v (List.mem_cons_of_mem _ hv)
    by_cases hv : v'.GetType = PropertyConfigTypeTitle
    · simpa [titleLoop, hv] using ih k' confs h2
    · have hk : k' ≠ k := by
        intro hk
        subst hk
        exact hv (h v' (List.mem_cons_self _ _))
      have := ih title (mapSet confs k' none) h2
      simpa [titleLoop, hv, mapGet_mapSet_ne _ _ _ _ hk] using this

theorem titleLoop_get_deleted (properties : GoMap PropertyConfig) (title : String)
    (confs : GoMap (Option PropertyConfig)) (k : String)
    (h : ∃ v, (k, v) ∈ properties ∧ v.GetType ≠ PropertyConfigTypeTitle) :
    mapGet (titleLoop properties title confs).2 k = some none := by
  induction properties generalizing title confs with
  | nil => simp at h
  | cons p properties ih =>
    obtain ⟨k', v'⟩ := p
    by_cases hlater : ∃ v, (k, v) ∈ properties ∧ v.GetType ≠ PropertyConfigTypeTitle
    · by_cases hv : v'.GetType = PropertyConfigTypeTitle
      · simpa [titleLoop, hv] using ih k' confs hlater
      · simpa [titleLoop, hv] using ih title (mapSet confs k' none) hlater
    · obtain ⟨v, hmem, hne⟩ := h
      rcases List.mem_cons.mp hmem with heq | hmem
      · obtain ⟨rfl, rfl⟩ := Prod.mk.inj heq
        have hkept : ∀ u, (k, u) ∈ properties → u.GetType = PropertyConfigTypeTitle := by
          intro u hu
          by_contra hne2
          exact hlater ⟨u, hu, hne2⟩
        have := titleLoop_get_kept properties title (mapSet confs k none) k hkept
        simpa [titleLoop, hne, mapGet_mapSet_self] using this
      · exact absurd ⟨v, hmem, hne⟩ hlater

theorem mem_delete_four (properties : GoMap PropertyConfig) (p : String × PropertyConfig) :
    p ∈ mapDelete (mapDelete (mapDelete (mapDelete properties "Time") "Id") "Start") "End" ↔
      p ∈ properties ∧ p.1 ≠ "Time" ∧ p.1 ≠ "Id" ∧ p.1 ≠ "Start" ∧ p.1 ≠ "End" := by
  simp only [mem_mapDelete]
  tauto

theorem baselineConfs_eq :
    mapSet (mapSet (mapSet (mapSet ([] : GoMap (Option PropertyConfig)) "Time"
      (some (PropertyConfig.FormulaPropertyConfig PropertyConfigTypeFormula timeExpression)))
      "Id" (some (PropertyConfig.RichTextPropertyConfig PropertyConfigTypeRichText)))
      "Start" (some (PropertyConfig.DatePropertyConfig PropertyConfigTypeDate)))
      "End" (some (PropertyConfig.DatePropertyConfig PropertyConfigTypeDate)) =
    baselineConfs := by
  decide

theorem requiredLoop_complete (properties : GoMap PropertyConfig)
    (confs : GoMap (Option PropertyConfig))
    (h : ∀ s ∈ requiredProps, mapHas properties s = true) :
    requiredLoop requiredProps properties confs =
      (mapDelete (mapDelete (mapDelete (mapDelete properties "Task") "Id") "Start") "End",
        confs) := by
  have hT : mapHas properties "Task" = true := h _ (by simp [requiredProps])
  have hI : mapHas properties "Id" = true := h _ (by simp [requiredProps])
  have hS : mapHas properties "Start" = true := h _ (by simp [requiredProps])
  have hE : mapHas properties "End" = true := h _ (by simp [requiredProps])
  have hI1 : mapHas (mapDelete properties "Task") "Id" = true := by
    rw [mapHas_mapDelete_ne _ _ _ (by decide)]; exact hI
  have hS1 : mapHas (mapDelete (mapDelete properties "Task") "Id") "Start" = true := by
    rw [mapHas_mapDelete_ne _ _ _ (by decide), mapHas_mapDelete_ne _ _ _ (by decide)]; exact hS
  have hE1 :
      mapHas (mapDelete (mapDelete (mapDelete properties "Task") "Id") "Start") "End" = true := by
    rw [mapHas_mapDelete_ne _ _ _ (by decide), mapHas_mapDelete_ne _ _ _ (by decide),
      mapHas_mapDelete_ne _ _ _ (by decide)]
    exact hE
  simp [requiredProps, requiredLoop, hT, hI1, hS1, hE1]

theorem requiredLoop_missing (properties : GoMap PropertyConfig)
    (h : ∃ s ∈ requiredProps, mapHas properties s = false) :
    (requiredLoop requiredProps properties []).2 = baselineConfs ∧
    ∀ p, p ∈ (requiredLoop requiredProps properties []).1 ↔
      p ∈ properties ∧ p.1 ∉ reservedNames := by
  have hconfs := baselineConfs_eq
  have key : ∀ q : GoMap PropertyConfig,
      (∀ p, p ∈ q ↔ p ∈ properties ∧ p.1 ≠ "Task") →
      ∀ p, p ∈ mapDelete (mapDelete (mapDelete (mapDelete q "Time") "Id") "Start") "End" ↔
        p ∈ properties ∧ p.1 ∉ reservedNames := by
    intro q hq p
    rw [mem_delete_four, hq]
    simp only [reservedNames, List.mem_cons, List.mem_singleton, not_or, List.mem_nil_iff,
      or_false]
    tauto
  by_cases hT : mapHas properties "Task" = true
  · have q1 : ∀ p, p ∈ mapDelete properties "Task" ↔ p ∈ properties ∧ p.1 ≠ "Task" :=
      fun p => mem_mapDelete _ _ p
    by_cases hI : mapHas (mapDelete properties "Task") "Id" = true
    · have q2 : ∀ p, p ∈ mapDelete (mapDelete properties "Task") "Id" ↔
          p ∈ mapDelete properties "Task" ∧ p.1 ≠ "Id" := fun p => mem_mapDelete _ _ p
      by_cases hS : mapHas (mapDelete (mapDelete properties "Task") "Id") "Start" = true
      · by_cases hE :
            mapHas (mapDelete (mapDelete (mapDelete properties "Task") "Id") "Start") "End" = true
        · exfalso
          obtain ⟨s, hs, hfalse⟩ := h
          rw [mapHas_mapDelete_ne _ _ _ (by decide)] at hI
          rw [mapHas_mapDelete_ne _ _ _ (by decide), mapHas_mapDelete_ne _ _ _ (by decide)] at hS
          rw [mapHas_mapDelete_ne _ _ _ (by decide), mapHas_mapDelete_ne _ _ _ (by decide),
            mapHas_mapDelete_ne _ _ _ (by decide)] at hE
          simp only [requiredProps, List.mem_cons, List.mem_singleton, List.mem_nil_iff,
            or_false] at hs
          rcases hs with rfl | rfl | rfl | rfl <;> simp_all
        · refine ⟨by simp [requiredProps, requiredLoop, hT, hI, hS, hE, hconfs], ?_⟩
          intro p
          simp only [requiredProps, requiredLoop, hT, hI, hS, hE, if_true, if_false,
            Bool.false_eq_true]
          rw [mem_delete_four, mem_mapDelete, mem_mapDelete, mem_mapDelete]
          simp only [reservedNames, List.mem_cons, List.mem_singleton, not_or,
            List.mem_nil_iff, or_false]
          tauto
      · refine ⟨by simp [requiredProps, requiredLoop, hT, hI, hS, hconfs], ?_⟩
        intro p
        simp only [requiredProps, requiredLoop, hT, hI, hS, if_true, if_false,
          Bool.false_eq_true]
        rw [mem_delete_four, mem_mapDelete, mem_mapDelete]
        simp only [reservedNames, List.mem_cons, List.mem_singleton, not_or,
          List.mem_nil_iff, or_false]
        tauto
    · refine ⟨by simp [requiredProps, requiredLoop, hT, hI, hconfs], ?_⟩
      intro p
      simp only [requiredProps, requiredLoop, hT, hI, if_true, if_false, Bool.false_eq_true]
      exact key _ q1 p
  · refine ⟨by simp [requiredProps, requiredLoop, hT, hconfs], ?_⟩
    intro p
    simp only [requiredProps, requiredLoop, hT, if_false, Bool.false_eq_true]
    refine key properties (fun p => ?_) p
    constructor
    · intro hp
      refine ⟨hp, fun hk => hT ?_⟩
      rw [mapHas_eq_true_iff]
      exact ⟨p.2, by rw [← hk]; exact hp⟩
    · exact fun hp => hp.1

theorem mapGet_baselineConfs_other (k : String)
    (hk : k ∉ ["Time", "Id", "Start", "End"]) : mapGet baselineConfs k = none := by
  simp only [List.mem_cons, List.mem_singleton, not_or, List.mem_nil_iff, or_false] at hk
  obtain ⟨h1, h2, h3, h4⟩ := hk
  simp [baselineConfs, mapGet, Ne.symm h1, Ne.symm h2, Ne.symm h3, Ne.symm h4]

/-- What `EnsureDatabase` does once the schema fetch has succeeded. -/
theorem EnsureDatabase_fetched (c : notionapi.Client) (w : World) (Id : String) (DB : Database)
    (hId : getDBId c.Config.DBLink = some Id)
    (hGet : c.Client.DatabaseGet (w.info "ensuring database") Id = Reply.ok DB) :
    c.EnsureDatabase w =
      (let w1 : World :=
        { w.info "ensuring database" with
          databaseGets := (w.info "ensuring database").databaseGets ++ [(Id, Reply.ok DB)] }
       let afterRequired := requiredLoop requiredProps DB.Properties []
       let afterTitle := titleLoop afterRequired.1 "" afterRequired.2
       if afterTitle.2.length = 0 then Outcome.ret ("", none) w1
       else
         match c.Client.DatabaseUpdate w1 Id { Properties := afterTitle.2 } with
         | some err =>
           Outcome.ret ("", some ("update database: " ++ err))
             { w1 with
               databaseUpdates :=
                 w1.databaseUpdates ++ [(Id, { Properties := afterTitle.2 }, some err)] }
         | none =>
           Outcome.ret (afterTitle.1, none)
             { w1 with
               databaseUpdates :=
                 w1.databaseUpdates ++ [(Id, { Properties := afterTitle.2 }, none)] }) := by
  simp only [notionapi.Client.EnsureDatabase, hId, hGet, requiredProps]
  split <;> rename_i h
  · rfl
  · split <;> rename_i e he <;> simp [he]

/-! ## The schema ensurer: theorems -/

/-- C2, as stated, fails: the table `completeWithNotes` holds all four required
columns and one more column `Notes`; the fetch succeeds, and `EnsureDatabase`
issues a schema-update call that deletes `Notes`. -/
theorem EnsureDatabase_complete_schema_extra_column_updated :
    getDBId (sampleClient completeWithNotes).Config.DBLink = some "abc" ∧
    (sampleClient completeWithNotes).Client.DatabaseGet
        (World.empty.info "ensuring database") "abc" = Reply.ok completeWithNotes ∧
    (∀ s ∈ requiredProps, mapHas completeWithNotes.Properties s = true) ∧
    ∃ w, (sampleClient completeWithNotes).EnsureDatabase World.empty =
          Outcome.ret ("", none) w ∧
        w.databaseUpdates = [("abc", { Properties := [("Notes", none)] }, none)] := by
  refine ⟨by decide, rfl, by decide, _, rfl, ?_⟩
  decide

/-- C2, amended: when all four required columns exist and every other column
is of type title, `EnsureDatabase`, once the schema fetch has succeeded,
performs no mutation: it issues no schema-update call and no row insert, and
returns the empty title name with no error. -/
theorem EnsureDatabase_complete_schema_no_update (c : notionapi.Client) (w : World)
    (Id : String) (DB : Database)
    (hId : getDBId c.Config.DBLink = some Id)
    (hGet : c.Client.DatabaseGet (w.info "ensuring database") Id = Reply.ok DB)
    (hReq : ∀ s ∈ requiredProps, mapHas DB.Properties s = true)
    (hExtra : ∀ p ∈ DB.Properties, p.1 ∉ requiredProps →
      p.2.GetType = PropertyConfigTypeTitle) :
    ∃ w', c.EnsureDatabase w = Outcome.ret ("", none) w' ∧
      w'.databaseUpdates = w.databaseUpdates ∧ w'.pageCreates = w.pageCreates := by
  rw [EnsureDatabase_fetched c w Id DB hId hGet, requiredLoop_complete _ _ hReq]
  have hall : ∀ p ∈ mapDelete (mapDelete (mapDelete (mapDelete DB.Properties "Task") "Id")
      "Start") "End", p.2.GetType = PropertyConfigTypeTitle := by
    intro p hp
    simp only [mem_mapDelete] at hp
    obtain ⟨⟨⟨⟨hm, h1⟩, h2⟩, h3⟩, h4⟩ := hp
    exact hExtra p hm (by simp [requiredProps, h1, h2, h3, h4])
  simp only [titleLoop_all_title _ _ _ hall]
  exact ⟨_, rfl, rfl, rfl⟩

/-- Witness for C2, amended: the table holding exactly the four required columns. -/
theorem EnsureDatabase_complete_schema_no_update_witness :
    ∃ w', (sampleClient completeExactly).EnsureDatabase World.empty =
        Outcome.ret ("", none) w' ∧
      w'.databaseUpdates = World.empty.databaseUpdates ∧
      w'.pageCreates = World.empty.pageCreates :=
  EnsureDatabase_complete_schema_no_update (sampleClient completeExactly) World.empty "abc"
    completeExactly (by decide) rfl (by decide) (by decide)

/-- The other half of the complete-schema path: when all four required
columns exist and some other column is not of type title, `EnsureDatabase`
issues exactly one schema-update call; it configures nothing and deletes
exactly the columns that carry no required name and are not of type title. -/
theorem EnsureDatabase_complete_schema_extras_deleted (c : notionapi.Client) (w : World)
    (Id : String) (DB : Database)
    (hId : getDBId c.Config.DBLink = some Id)
    (hGet : c.Client.DatabaseGet (w.info "ensuring database") Id = Reply.ok DB)
    (hReq : ∀ s ∈ requiredProps, mapHas DB.Properties s = true)
    (hExtra : ∃ p ∈ DB.Properties, p.1 ∉ requiredProps ∧
      p.2.GetType ≠ PropertyConfigTypeTitle) :
    ∃ r w' req e, c.EnsureDatabase w = Outcome.ret r w' ∧
      w'.databaseUpdates = w.databaseUpdates ++ [(Id, req, e)] ∧
      ∀ k, (∀ cfg, mapGet req.Properties k ≠ some (some cfg)) ∧
        (mapGet req.Properties k = some none ↔
          k ∉ requiredProps ∧ ∃ v, (k, v) ∈ DB.Properties ∧
            v.GetType ≠ PropertyConfigTypeTitle) := by
  have hmem : ∀ p, p ∈ mapDelete (mapDelete (mapDelete (mapDelete DB.Properties "Task") "Id")
      "Start") "End" ↔ p ∈ DB.Properties ∧ p.1 ∉ requiredProps := by
    intro p
    simp only [mem_mapDelete, requiredProps, List.mem_cons, List.mem_singleton, not_or,
      List.mem_nil_iff, or_false]
    tauto
  have hget : ∀ k,
      (∀ cfg, mapGet (titleLoop (mapDelete (mapDelete (mapDelete (mapDelete DB.Properties
        "Task") "Id") "Start") "End") "" []).2 k ≠ some (some cfg)) ∧
      (mapGet (titleLoop (mapDelete (mapDelete (mapDelete (mapDelete DB.Properties
        "Task") "Id") "Start") "End") "" []).2 k = some none ↔
        k ∉ requiredProps ∧ ∃ v, (k, v) ∈ DB.Properties ∧
          v.GetType ≠ PropertyConfigTypeTitle) := by
    intro k
    by_cases hdel : ∃ v, (k, v) ∈ mapDelete (mapDelete (mapDelete (mapDelete DB.Properties
        "Task") "Id") "Start") "End" ∧ v.GetType ≠ PropertyConfigTypeTitle
    · rw [titleLoop_get_deleted _ _ _ k hdel]
      obtain ⟨v, hv, hne⟩ := hdel
      have hv2 := (hmem (k, v)).mp hv
      exact ⟨fun cfg h => by simp at h, ⟨fun _ => ⟨hv2.2, v, hv2.1, hne⟩, fun _ => rfl⟩⟩
    · have hk2 : ∀ v, (k, v) ∈ mapDelete (mapDelete (mapDelete (mapDelete DB.Properties
          "Task") "Id") "Start") "End" → v.GetType = PropertyConfigTypeTitle := by
        intro v hv
        by_contra hne
        exact hdel ⟨v, hv, hne⟩
      rw [titleLoop_get_kept _ _ _ k hk2]
      refine ⟨fun cfg h => by simp [mapGet] at h, ⟨fun h => by simp [mapGet] at h, ?_⟩⟩
      rintro ⟨hk, v, hv, hne⟩
      exact absurd ⟨v, (hmem (k, v)).mpr ⟨hv, hk⟩, hne⟩ hdel
  have hne : (titleLoop (mapDelete (mapDelete (mapDelete (mapDelete DB.Properties
      "Task") "Id") "Start") "End") "" []).2.length ≠ 0 := by
    intro h0
    obtain ⟨p, hp, hpk, hpt⟩ := hExtra
    exact titleLoop_some_other _ "" [] ⟨p, (hmem p).mpr ⟨hp, hpk⟩, hpt⟩
      (List.length_eq_zero.mp h0)
  rw [EnsureDatabase_fetched c w Id DB hId hGet, requiredLoop_complete _ _ hReq]
  simp only [hne, if_false]
  split
  · exact ⟨_, _, _, _, rfl, rfl, hget⟩
  · exact ⟨_, _, _, _, rfl, rfl, hget⟩

/-- C3, as stated, fails: the table `nameIdScore` (title column `Name`, a text
column `Id`, a number column `Score`) lacks `Task`; the one schema-update call
`EnsureDatabase` issues holds no config for the title column, neither under
`Task` nor under `Name`, and the pre-existing non-title column `Id` is not
deleted but configured. -/
theorem EnsureDatabase_missing_update_without_title_config :
    (∃ s ∈ requiredProps, mapHas nameIdScore.Properties s = false) ∧
    (∃ v, ("Id", v) ∈ nameIdScore.Properties ∧ v.GetType ≠ PropertyConfigTypeTitle) ∧
    ∃ w req, (sampleClient nameIdScore).EnsureDatabase World.empty =
          Outcome.ret ("Name", none) w ∧
        w.databaseUpdates = [("abc", req, none)] ∧
        req.Properties = baselineConfs ++ [("Score", none)] ∧
        mapGet req.Properties "Task" = none ∧
        mapGet req.Properties "Name" = none ∧
        mapGet req.Properties "Id" ≠ some none := by
  refine ⟨⟨"Task", by decide, by decide⟩, ⟨_, List.mem_cons_of_mem _ (List.mem_cons_self _ _),
    by decide⟩, _, _, rfl, rfl, ?_, ?_, ?_, ?_⟩ <;> decide

/-- C3, amended: when at least one required column is missing, `EnsureDatabase`,
once the schema fetch has succeeded, issues exactly one schema-update call.  Its
property set holds, under the names `Time`, `Id`, `Start` and `End`, a formula
config, a rich-text config and two date configs, whatever column carried these
names before.  Under every other name it holds no config: the title column is
configured exactly when it carries one of these four names, and nothing is
configured under `Task`.  It holds a deletion (nil config) for exactly the
pre-existing columns that are not of type title and are not named `Task`,
`Time`, `Id`, `Start` or `End`, and nothing at all under any remaining name. -/
theorem EnsureDatabase_missing_one_update (c : notionapi.Client) (w : World)
    (Id : String) (DB : Database)
    (hId : getDBId c.Config.DBLink = some Id)
    (hGet : c.Client.DatabaseGet (w.info "ensuring database") Id = Reply.ok DB)
    (hMiss : ∃ s ∈ requiredProps, mapHas DB.Properties s = false) :
    ∃ r w' req e, c.EnsureDatabase w = Outcome.ret r w' ∧
      w'.databaseUpdates = w.databaseUpdates ++ [(Id, req, e)] ∧
      mapGet req.Properties "Time" =
        some (some (PropertyConfig.FormulaPropertyConfig PropertyConfigTypeFormula
          timeExpression)) ∧
      mapGet req.Properties "Id" =
        some (some (PropertyConfig.RichTextPropertyConfig PropertyConfigTypeRichText)) ∧
      mapGet req.Properties "Start" =
        some (some (PropertyConfig.DatePropertyConfig PropertyConfigTypeDate)) ∧
      mapGet req.Properties "End" =
        some (some (PropertyConfig.DatePropertyConfig PropertyConfigTypeDate)) ∧
      (∀ k, k ∉ ["Time", "Id", "Start", "End"] →
        (∀ cfg, mapGet req.Properties k ≠ some (some cfg)) ∧
        (mapGet req.Properties k = some none ↔
          k ≠ "Task" ∧ ∃ v, (k, v) ∈ DB.Properties ∧ v.GetType ≠ PropertyConfigTypeTitle) ∧
        (¬ (k ≠ "Task" ∧ ∃ v, (k, v) ∈ DB.Properties ∧
            v.GetType ≠ PropertyConfigTypeTitle) →
          mapGet req.Properties k = none)) ∧
      (∀ k v, (k, v) ∈ DB.Properties → v.GetType = PropertyConfigTypeTitle →
        ((∃ cfg, mapGet req.Properties k = some (some cfg)) ↔
          k ∈ ["Time", "Id", "Start", "End"])) := by
  obtain ⟨hconfs, hmem⟩ := requiredLoop_missing DB.Properties hMiss
  -- the columns left for the second loop carry none of the reserved names
  have hkeep : ∀ k, k ∈ reservedNames →
      mapGet (titleLoop (requiredLoop requiredProps DB.Properties []).1 ""
        (requiredLoop requiredProps DB.Properties []).2).2 k = mapGet baselineConfs k := by
    intro k hk
    rw [titleLoop_get_kept _ _ _ k, hconfs]
    intro v hv
    exact absurd hk ((hmem (k, v)).mp hv).2
  have hother : ∀ k, k ∉ ["Time", "Id", "Start", "End"] →
      (∀ cfg, mapGet (titleLoop (requiredLoop requiredProps DB.Properties []).1 ""
        (requiredLoop requiredProps DB.Properties []).2).2 k ≠ some (some cfg)) ∧
      (mapGet (titleLoop (requiredLoop requiredProps DB.Properties []).1 ""
        (requiredLoop requiredProps DB.Properties []).2).2 k = some none ↔
        k ≠ "Task" ∧ ∃ v, (k, v) ∈ DB.Properties ∧ v.GetType ≠ PropertyConfigTypeTitle) ∧
      (¬ (k ≠ "Task" ∧ ∃ v, (k, v) ∈ DB.Properties ∧
          v.GetType ≠ PropertyConfigTypeTitle) →
        mapGet (titleLoop (requiredLoop requiredProps DB.Properties []).1 ""
          (requiredLoop requiredProps DB.Properties []).2).2 k = none) := by
    intro k hk
    have hres : k ∉ reservedNames ↔ k ≠ "Task" := by
      simp only [List.mem_cons, List.mem_singleton, not_or, List.mem_nil_iff, or_false] at hk
      simp only [reservedNames, List.mem_cons, List.mem_singleton, not_or, List.mem_nil_iff,
        or_false]
      tauto
    by_cases hdel : ∃ v, (k, v) ∈ (requiredLoop requiredProps DB.Properties []).1 ∧
        v.GetType ≠ PropertyConfigTypeTitle
    · rw [titleLoop_get_deleted _ _ _ k hdel]
      obtain ⟨v, hv, hne⟩ := hdel
      have hv2 := (hmem (k, v)).mp hv
      exact ⟨fun cfg h => by simp at h,
        ⟨fun _ => ⟨hres.mp hv2.2, v, hv2.1, hne⟩, fun _ => rfl⟩,
        fun hno => absurd ⟨hres.mp hv2.2, v, hv2.1, hne⟩ hno⟩
    · have hk2 : ∀ v, (k, v) ∈ (requiredLoop requiredProps DB.Properties []).1 →
          v.GetType = PropertyConfigTypeTitle := by
        intro v hv
        by_contra hne
        exact hdel ⟨v, hv, hne⟩
      rw [titleLoop_get_kept _ _ _ k hk2, hconfs, mapGet_baselineConfs_other k hk]
      refine ⟨fun cfg h => by simp at h, ⟨fun h => by simp at h, ?_⟩, fun _ => rfl⟩
      rintro ⟨hT, v, hv, hne⟩
      exact absurd ⟨v, (hmem (k, v)).mpr ⟨hv, hres.mpr hT⟩, hne⟩ hdel
  have hne : (titleLoop (requiredLoop requiredProps DB.Properties []).1 ""
      (requiredLoop requiredProps DB.Properties []).2).2.length ≠ 0 := by
    intro h0
    have hnil := List.length_eq_zero.mp h0
    refine titleLoop_confs_ne_nil _ _ _ ?_ hnil
    rw [hconfs]
    decide
  have hTime := hkeep "Time" (by decide)
  have hIdc := hkeep "Id" (by decide)
  have hStart := hkeep "Start" (by decide)
  have hEnd := hkeep "End" (by decide)
  have htitle : ∀ k v, (k, v) ∈ DB.Properties → v.GetType = PropertyConfigTypeTitle →
      ((∃ cfg, mapGet (titleLoop (requiredLoop requiredProps DB.Properties []).1 ""
        (requiredLoop requiredProps DB.Properties []).2).2 k = some (some cfg)) ↔
        k ∈ ["Time", "Id", "Start", "End"]) := by
    intro k v _ _
    constructor
    · rintro ⟨cfg, hcfg⟩
      by_contra hk
      exact (hother k hk).1 cfg hcfg
    · intro hk
      simp only [List.mem_cons, List.mem_singleton, List.mem_nil_iff, or_false] at hk
      rcases hk with rfl | rfl | rfl | rfl
      · exact ⟨_, hTime⟩
      · exact ⟨_, hIdc⟩
      · exact ⟨_, hStart⟩
      · exact ⟨_, hEnd⟩
  rw [EnsureDatabase_fetched c w Id DB hId hGet]
  simp only [hne, if_false]
  split
  · exact ⟨_, _, _, _, rfl, rfl, hTime, hIdc, hStart, hEnd, hother, htitle⟩
  · exact ⟨_, _, _, _, rfl, rfl, hTime, hIdc, hStart, hEnd, hother, htitle⟩

/-- Witness for C3, amended: the fresh table holding only the title column `Name`. -/
theorem EnsureDatabase_missing_one_update_witness :
    ∃ r w' req e, (sampleClient nameOnly).EnsureDatabase World.empty = Outcome.ret r w' ∧
      w'.databaseUpdates = World.empty.databaseUpdates ++ [("abc", req, e)] ∧
      mapGet req.Properties "Time" =
        some (some (PropertyConfig.FormulaPropertyConfig PropertyConfigTypeFormula
          timeExpression)) ∧
      mapGet req.Properties "Id" =
        some (some (PropertyConfig.RichTextPropertyConfig PropertyConfigTypeRichText)) ∧
      mapGet req.Properties "Start" =
        some (some (PropertyConfig.DatePropertyConfig PropertyConfigTypeDate)) ∧
      mapGet req.Properties "End" =
        some (some (PropertyConfig.DatePropertyConfig PropertyConfigTypeDate)) ∧
      (∀ k, k ∉ ["Time", "Id", "Start", "End"] →
        (∀ cfg, mapGet req.Properties k ≠ some (some cfg)) ∧
        (mapGet req.Properties k = some none ↔
          k ≠ "Task" ∧ ∃ v, (k, v) ∈ nameOnly.Properties ∧
            v.GetType ≠ PropertyConfigTypeTitle) ∧
        (¬ (k ≠ "Task" ∧ ∃ v, (k, v) ∈ nameOnly.Properties ∧
            v.GetType ≠ PropertyConfigTypeTitle) →
          mapGet req.Properties k = none)) ∧
      (∀ k v, (k, v) ∈ nameOnly.Properties → v.GetType = PropertyConfigTypeTitle →
        ((∃ cfg, mapGet req.Properties k = some (some cfg)) ↔
          k ∈ ["Time", "Id", "Start", "End"])) :=
  EnsureDatabase_missing_one_update (sampleClient nameOnly) World.empty "abc" nameOnly
    (by decide) rfl ⟨"Task", by decide, by decide⟩

/-- The table `timeTitled`: the title column is named `Time`, and the one
update holds the formula config under that name. -/
theorem EnsureDatabase_title_named_Time_is_configured :
    ("Time", PropertyConfig.TitlePropertyConfig PropertyConfigTypeTitle) ∈
        timeTitled.Properties ∧
    ∃ w, (sampleClient timeTitled).EnsureDatabase World.empty = Outcome.ret ("", none) w ∧
      w.databaseUpdates = [("abc", { Properties := baselineConfs }, none)] ∧
      mapGet baselineConfs "Time" =
        some (some (PropertyConfig.FormulaPropertyConfig PropertyConfigTypeFormula
          timeExpression)) := by
  refine ⟨by decide, _, rfl, ?_, ?_⟩ <;> decide

theorem titleLoop_title_unique (properties : GoMap PropertyConfig) (title : String)
    (confs : GoMap (Option PropertyConfig)) (k0 : String)
    (huniq : ∀ p ∈ properties, p.2.GetType = PropertyConfigTypeTitle → p.1 = k0)
    (hex : title = k0 ∨ ∃ p ∈ properties, p.2.GetType = PropertyConfigTypeTitle) :
    (titleLoop properties title confs).1 = k0 := by
  induction properties generalizing title confs with
  | nil =>
    rcases hex with h | ⟨p, hp, _⟩
    · simpa [titleLoop] using h
    · simp at hp
  | cons q properties ih =>
    obtain ⟨k, v⟩ := q
    have huniq2 : ∀ p ∈ properties, p.2.GetType = PropertyConfigTypeTitle → p.1 = k0 :=
      fun p hp => huniq p (List.mem_cons_of_mem _ hp)
    by_cases hv : v.GetType = PropertyConfigTypeTitle
    · have hk : k = k0 := huniq (k, v) (List.mem_cons_self _ _) hv
      simpa [titleLoop, hv] using ih k confs huniq2 (Or.inl hk)
    · have hex2 : title = k0 ∨ ∃ p ∈ properties, p.2.GetType = PropertyConfigTypeTitle := by
        rcases hex with h | ⟨p, hp, hpt⟩
        · exact Or.inl h
        · rcases List.mem_cons.mp hp with rfl | hp
          · exact absurd hpt hv
          · exact Or.inr ⟨p, hp, hpt⟩
      simpa [titleLoop, hv] using ih title (mapSet confs k none) huniq2 hex2

/-- The title column is detected when it carries none of the reserved names:
if a required column is missing, the only title-typed column is `k0`, `k0` is
not `Task`, `Time`, `Id`, `Start` or `End`, and the update succeeds, then
`EnsureDatabase` returns `k0`. -/
theorem EnsureDatabase_title_detected (c : notionapi.Client) (w : World)
    (Id : String) (DB : Database) (k0 : String)
    (hId : getDBId c.Config.DBLink = some Id)
    (hGet : c.Client.DatabaseGet (w.info "ensuring database") Id = Reply.ok DB)
    (hUpd : ∀ w1 req, c.Client.DatabaseUpdate w1 Id req = none)
    (hMiss : ∃ s ∈ requiredProps, mapHas DB.Properties s = false)
    (hex : ∃ p ∈ DB.Properties, p.1 = k0 ∧ p.2.GetType = PropertyConfigTypeTitle)
    (huniq : ∀ p ∈ DB.Properties, p.2.GetType = PropertyConfigTypeTitle → p.1 = k0)
    (hk0 : k0 ∉ reservedNames) :
    ∃ w', c.EnsureDatabase w = Outcome.ret (k0, none) w' := by
  obtain ⟨hconfs, hmem⟩ := requiredLoop_missing DB.Properties hMiss
  have htitle : (titleLoop (requiredLoop requiredProps DB.Properties []).1 ""
      (requiredLoop requiredProps DB.Properties []).2).1 = k0 := by
    apply titleLoop_title_unique
    · exact fun p hp ht => huniq p ((hmem p).mp hp).1 ht
    · obtain ⟨p, hp, hpk, hpt⟩ := hex
      exact Or.inr ⟨p, (hmem p).mpr ⟨hp, by rw [hpk]; exact hk0⟩, hpt⟩
  have hne : (titleLoop (requiredLoop requiredProps DB.Properties []).1 ""
      (requiredLoop requiredProps DB.Properties []).2).2.length ≠ 0 := by
    intro h0
    refine titleLoop_confs_ne_nil _ _ _ ?_ (List.length_eq_zero.mp h0)
    rw [hconfs]
    decide
  rw [EnsureDatabase_fetched c w Id DB hId hGet]
  simp only [hne, if_false, hUpd, htitle]
  exact ⟨_, rfl⟩

/-- C6, failing input: the table `taskTitled` has exactly one column of type
title, named `Task`, and lacks `Id`.  The fetch and the update both succeed, and
`EnsureDatabase` returns the empty string as the title-column name, not `Task`. -/
theorem EnsureDatabase_title_named_Task_returns_empty :
    taskTitled.Properties.filter (fun p => p.2.GetType = PropertyConfigTypeTitle) =
        [("Task", PropertyConfig.TitlePropertyConfig PropertyConfigTypeTitle)] ∧
    mapHas taskTitled.Properties "Id" = false ∧
    ∃ w, (sampleClient taskTitled).EnsureDatabase World.empty = Outcome.ret ("", none) w ∧
      w.databaseUpdates = [("abc", { Properties := baselineConfs }, none)] := by
  refine ⟨by decide, by decide, _, rfl, ?_⟩
  decide

/-! ## The row writer: lemmas -/

theorem warnings_info (w : World) (msg : String) : (w.info msg).warnings = w.warnings := by
  simp [World.info, World.warnings, List.filterMap_append]

theorem warnings_warn (w : World) (msg : String) :
    (w.warn msg).warnings = w.warnings ++ [msg] := by
  simp [World.warn, World.warnings, List.filterMap_append]

theorem PutEvent_no_Start (env : Env) (c : notionapi.Client) (title : String) (event : Event)
    (w : World) (h : event.Start = none) : c.PutEvent env title event w = Outcome.crash := by
  simp [notionapi.Client.PutEvent, h]

theorem PutEvent_no_End (env : Env) (c : notionapi.Client) (title : String) (event : Event)
    (w : World) (startRec : EventDateTime) (start : Time)
    (hS : event.Start = some startRec)
    (hP : env.timeParse RFC3339 startRec.DateTime = Reply.ok start)
    (hE : event.End = none) : c.PutEvent env title event w = Outcome.crash := by
  simp [notionapi.Client.PutEvent, hS, hP, hE]

theorem PutEvent_parsed (env : Env) (c : notionapi.Client) (title : String) (event : Event)
    (w : World) (Id : String) (start finish : Time)
    (hId : getDBId c.Config.DBLink = some Id)
    (hp : parsedTimes env event = some (start, finish)) :
    c.PutEvent env title event w =
      Outcome.ret
        ((c.Client.PageCreate (w.info ("put event: " ++ event.Summary))
            (notionapi.pageRequest Id title event start finish)).map fun err => "put event: " ++ err)
        { w.info ("put event: " ++ event.Summary) with
          pageCreates := (w.info ("put event: " ++ event.Summary)).pageCreates ++
            [(notionapi.pageRequest Id title event start finish,
              c.Client.PageCreate (w.info ("put event: " ++ event.Summary))
                (notionapi.pageRequest Id title event start finish))] } := by
  unfold parsedTimes at hp
  cases hS : event.Start with
  | none => simp [hS] at hp
  | some startRec =>
    cases hE : event.End with
    | none => simp [hS, hE] at hp
    | some endRec =>
      simp only [hS, hE] at hp
      cases h1 : env.timeParse RFC3339 startRec.DateTime with
      | error err => simp [h1] at hp
      | ok a =>
        cases h2 : env.timeParse RFC3339 endRec.DateTime with
        | error err => simp [h1, h2] at hp
        | ok b =>
          simp only [h1, h2, Option.some.injEq, Prod.mk.injEq] at hp
          obtain ⟨rfl, rfl⟩ := hp
          simp only [notionapi.Client.PutEvent, hS, hE, h1, h2, hId]
          generalize c.Client.PageCreate (w.info ("put event: " ++ event.Summary))
            (notionapi.pageRequest Id title event a b) = r
          cases r <;> rfl

theorem PutEvent_unparsed (env : Env) (c : notionapi.Client) (title : String) (event : Event)
    (w : World) (hS : event.Start ≠ none) (hE : event.End ≠ none)
    (hp : parsedTimes env event = none) :
    ∃ err, c.PutEvent env title event w =
      Outcome.ret (some err) (w.info ("put event: " ++ event.Summary)) := by
  unfold parsedTimes at hp
  cases hS1 : event.Start with
  | none => exact absurd hS1 hS
  | some startRec =>
    cases hE1 : event.End with
    | none => exact absurd hE1 hE
    | some endRec =>
      simp only [hS1, hE1] at hp
      cases h1 : env.timeParse RFC3339 startRec.DateTime with
      | error err =>
        exact ⟨"put event: " ++ ("convert start time to RFC3339: " ++ err),
          by simp [notionapi.Client.PutEvent, hS1, h1]⟩
      | ok a =>
        cases h2 : env.timeParse RFC3339 endRec.DateTime with
        | error err =>
          exact ⟨"put event: " ++ ("convert end time to RFC3339: " ++ err),
            by simp [notionapi.Client.PutEvent, hS1, hE1, h1, h2]⟩
        | ok b => simp [h1, h2] at hp

theorem putAll_isolates (env : Env) (c : notionapi.Client) (title : String) (Id : String)
    (hId : getDBId c.Config.DBLink = some Id) (events : List Event)
    (hRec : ∀ e ∈ events, e.Start ≠ none ∧ e.End ≠ none) (w : World) :
    ∃ w', c.putAll env title events w = Outcome.ret () w' ∧
      w'.inserts = w.inserts ++ events.filterMap (fun e =>
        (parsedTimes env e).map fun t => notionapi.pageRequest Id title e t.1 t.2) ∧
      w'.warnings.length + w.failedInserts =
        w.warnings.length + (events.filter fun e => (parsedTimes env e).isNone).length +
          w'.failedInserts ∧
      w'.databaseUpdates = w.databaseUpdates ∧ w'.eventsLists = w.eventsLists := by
  induction events generalizing w with
  | nil => exact ⟨w, rfl, by simp, by simp, rfl, rfl⟩
  | cons e events ih =>
    have hRec2 : ∀ x ∈ events, x.Start ≠ none ∧ x.End ≠ none :=
      fun x hx => hRec x (List.mem_cons_of_mem _ hx)
    obtain ⟨hS, hE⟩ := hRec e (List.mem_cons_self _ _)
    cases hp : parsedTimes env e with
    | none =>
      obtain ⟨err, herr⟩ := PutEvent_unparsed env c title e w hS hE hp
      obtain ⟨w', h1, h2, h3, h4, h5⟩ :=
        ih hRec2 ((w.info ("put event: " ++ e.Summary)).warn ("put events: " ++ err))
      refine ⟨w', ?_, ?_, ?_, ?_, ?_⟩
      · simp only [notionapi.Client.putAll, herr]; exact h1
      · rw [h2]; simp [World.inserts, World.info, World.warn, hp]
      · have e1 : ((w.info ("put event: " ++ e.Summary)).warn
            ("put events: " ++ err)).warnings.length = w.warnings.length + 1 := by
          rw [warnings_warn, warnings_info]; simp
        have e2 : ((w.info ("put event: " ++ e.Summary)).warn
            ("put events: " ++ err)).failedInserts = w.failedInserts := rfl
        have e3 : ((e :: events).filter fun e => (parsedTimes env e).isNone).length =
            (events.filter fun e => (parsedTimes env e).isNone).length + 1 := by
          simp [List.filter_cons, hp]
        rw [e1, e2] at h3
        rw [e3]
        omega
      · rw [h4]; rfl
      · rw [h5]; rfl
    | some t =>
      obtain ⟨a, b⟩ := t
      have hput := PutEvent_parsed env c title e w Id a b hId hp
      generalize hr : c.Client.PageCreate (w.info ("put event: " ++ e.Summary))
        (notionapi.pageRequest Id title e a b) = r at hput
      cases r with
      | none =>
        obtain ⟨w', h1, h2, h3, h4, h5⟩ := ih hRec2
          { w.info ("put event: " ++ e.Summary) with
            pageCreates := (w.info ("put event: " ++ e.Summary)).pageCreates ++
              [(notionapi.pageRequest Id title e a b, none)] }
        refine ⟨w', ?_, ?_, ?_, ?_, ?_⟩
        · simp only [notionapi.Client.putAll, hput, Option.map_none']; exact h1
        · rw [h2]; simp [World.inserts, World.info, hp]
        · have e1 : World.warnings
              { w.info ("put event: " ++ e.Summary) with
                pageCreates := (w.info ("put event: " ++ e.Summary)).pageCreates ++
                  [(notionapi.pageRequest Id title e a b, none)] } = w.warnings :=
            warnings_info w _
          have e2 : World.failedInserts
              { w.info ("put event: " ++ e.Summary) with
                pageCreates := (w.info ("put event: " ++ e.Summary)).pageCreates ++
                  [(notionapi.pageRequest Id title e a b, none)] } = w.failedInserts := by
            simp [World.failedInserts, World.info, List.filter_append]
          have e3 : ((e :: events).filter fun e => (parsedTimes env e).isNone).length =
              (events.filter fun e => (parsedTimes env e).isNone).length := by
            simp [List.filter_cons, hp]
          rw [e1, e2] at h3
          rw [e3]
          omega
        · rw [h4]; rfl
        · rw [h5]; rfl
      | some err =>
        obtain ⟨w', h1, h2, h3, h4, h5⟩ := ih hRec2
          (World.warn
            { w.info ("put event: " ++ e.Summary) with
              pageCreates := (w.info ("put event: " ++ e.Summary)).pageCreates ++
                [(notionapi.pageRequest Id title e a b, some err)] }
            ("put events: " ++ ("put event: " ++ err)))
        refine ⟨w', ?_, ?_, ?_, ?_, ?_⟩
        · simp only [notionapi.Client.putAll, hput, Option.map_some']; exact h1
        · rw [h2]; simp [World.inserts, World.info, World.warn, hp]
        · have e0 : World.warnings
              { w.info ("put event: " ++ e.Summary) with
                pageCreates := (w.info ("put event: " ++ e.Summary)).pageCreates ++
                  [(notionapi.pageRequest Id title e a b, some err)] } = w.warnings :=
            warnings_info w _
          have e1 : (World.warn
              { w.info ("put event: " ++ e.Summary) with
                pageCreates := (w.info ("put event: " ++ e.Summary)).pageCreates ++
                  [(notionapi.pageRequest Id title e a b, some err)] }
              ("put events: " ++ ("put event: " ++ err))).warnings.length =
              w.warnings.length + 1 := by
            rw [warnings_warn, e0]; simp
          have e2 : (World.warn
              { w.info ("put event: " ++ e.Summary) with
                pageCreates := (w.info ("put event: " ++ e.Summary)).pageCreates ++
                  [(notionapi.pageRequest Id title e a b, some err)] }
              ("put events: " ++ ("put event: " ++ err))).failedInserts =
              w.failedInserts + 1 := by
            simp [World.failedInserts, World.info, World.warn, List.filter_append]
          have e3 : ((e :: events).filter fun e => (parsedTimes env e).isNone).length =
              (events.filter fun e => (parsedTimes env e).isNone).length := by
            simp [List.filter_cons, hp]
          rw [e1, e2] at h3
          rw [e3]
          omega
        · rw [h4]; rfl
        · rw [h5]; rfl

/-! ## The row writer: theorems -/

/-- When every event carries `Start` and `End` records (and the database link
is long enough for `getDBId`), `PutEvents` returns after every event has been
processed, having issued one row insert for each event whose two timestamps
parse and none for any other, and one warning for each event whose timestamps
did not parse plus one for each insert that was answered with an error. -/
theorem PutEvents_isolates_failures (env : Env) (c : notionapi.Client) (title : String)
    (Id : String) (events : List Event) (w : World)
    (hId : getDBId c.Config.DBLink = some Id)
    (hRec : ∀ e ∈ events, e.Start ≠ none ∧ e.End ≠ none) :
    ∃ w', c.PutEvents env title events w = Outcome.ret () w' ∧
      w'.inserts = w.inserts ++ events.filterMap (fun e =>
        (parsedTimes env e).map fun t => notionapi.pageRequest Id title e t.1 t.2) ∧
      w'.warnings.length + w.failedInserts =
        w.warnings.length + (events.filter fun e => (parsedTimes env e).isNone).length +
          w'.failedInserts := by
  obtain ⟨w', h1, h2, h3, _, _⟩ :=
    putAll_isolates env c title Id hId events hRec (w.info "putting events")
  refine ⟨w', h1, ?_, ?_⟩
  · rw [h2]; rfl
  · rw [warnings_info] at h3
    exact h3

/-- Three events of which the second has an unparsable start: two row inserts,
one warning, and `PutEvents` returns. -/
theorem PutEvents_second_start_unparsable :
    ∃ w, (sampleClient nameOnly).PutEvents sampleEnv "Name" [meeting, badStart, meeting]
        World.empty = Outcome.ret () w ∧
      w.inserts.length = 2 ∧ w.warnings.length = 1 :=
  ⟨_, rfl, by decide, by decide⟩

/-- An event whose `Start` or `End` record is present with an empty `DateTime`
(an all-day event), the other record being present too: if `time.Parse` rejects
the empty string, `PutEvent` returns an error and inserts no row. -/
theorem PutEvent_empty_DateTime_is_error (env : Env) (c : notionapi.Client) (title : String)
    (event : Event) (w : World) (startRec endRec : EventDateTime)
    (hParse : (env.timeParse RFC3339 "").failed = true)
    (hS : event.Start = some startRec) (hE : event.End = some endRec)
    (hEmpty : startRec.DateTime = "" ∨ endRec.DateTime = "") :
    ∃ err w', c.PutEvent env title event w = Outcome.ret (some err) w' ∧
      w'.pageCreates = w.pageCreates := by
  have hp : parsedTimes env event = none := by
    unfold parsedTimes
    simp only [hS, hE]
    rcases hEmpty with h | h
    · rw [h]
      cases h0 : env.timeParse RFC3339 "" with
      | ok t => simp [h0, Reply.failed] at hParse
      | error e => rfl
    · rw [h]
      cases h0 : env.timeParse RFC3339 "" with
      | ok t => simp [h0, Reply.failed] at hParse
      | error e => cases env.timeParse RFC3339 startRec.DateTime <;> rfl
  obtain ⟨err, herr⟩ := PutEvent_unparsed env c title event w (by simp [hS]) (by simp [hE]) hp
  exact ⟨err, _, herr, rfl⟩

/-- C8, failing input: an event without a `Start` record.  `PutEvent` does not
return an error: it panics on the nil pointer, whatever the collaborators and
the title name; an event whose start parses and whose `End` record is missing
panics in the same way. -/
theorem PutEvent_missing_record_panics (env : Env) (c : notionapi.Client) (title : String)
    (w : World) :
    c.PutEvent env title cancelledInstance w = Outcome.crash ∧
    (sampleClient nameOnly).PutEvent sampleEnv title { meeting with End := none } w =
      Outcome.crash :=
  ⟨PutEvent_no_Start env c title cancelledInstance w rfl,
    PutEvent_no_End sampleEnv (sampleClient nameOnly) title { meeting with End := none } w
      { DateTime := "2024-05-01T09:00:00Z" } { unixNano := 1714554000000000000, offset := 0 }
      rfl (by decide) rfl⟩

/-- C4, failing input: three events of which the second has no `Start` record.
The unit of work of that event panics, which ends the process: no warning is
logged for it, and in the list-order schedule `PutEvents` has not returned. -/
theorem PutEvents_missing_record_panics :
    (sampleClient nameOnly).PutEvents sampleEnv "Name"
      [meeting, cancelledInstance, meeting] World.empty = Outcome.crash := by
  decide

/-! ## The event fetcher -/

/-- The entries the queries of `ListEvents` add to the world: the `k`-th answer
belongs to the `k`-th configured calendar. -/
theorem listLoop_spec (c : calendarapi.Client) (morning night : String) (cals : List String)
    (events : List Event) (w : World) :
    ∃ answers : List (Reply Events),
      answers.length ≤ cals.length ∧
      (c.listLoop morning night cals events w).2.eventsLists =
        w.eventsLists ++
          (List.zip cals answers).map (fun p => (p.1, morning, night, p.2)) ∧
      (c.listLoop morning night cals events w).2.pageCreates = w.pageCreates ∧
      ((∀ r ∈ answers, r.failed = false) →
        answers.length = cals.length ∧
        (c.listLoop morning night cals events w).1 =
          (events ++ answers.flatMap Reply.items, none)) ∧
      ((∃ r ∈ answers, r.failed = true) →
        ∃ err, (c.listLoop morning night cals events w).1 = ([], some err)) := by
  induction cals generalizing events w with
  | nil => exact ⟨[], by simp, by simp [calendarapi.Client.listLoop],
      by simp [calendarapi.Client.listLoop], fun _ => by simp [calendarapi.Client.listLoop],
      fun h => by simp at h⟩
  | cons cal cals ih =>
    cases hr : c.CalendarClient.EventsList w cal morning night with
    | error err =>
      refine ⟨[Reply.error err], by simp, ?_, ?_, ?_, ?_⟩
      · simp [calendarapi.Client.listLoop, hr]
      · simp [calendarapi.Client.listLoop, hr]
      · intro h
        have := h (Reply.error err) (List.mem_singleton.mpr rfl)
        simp [Reply.failed] at this
      · intro _
        exact ⟨err, by simp [calendarapi.Client.listLoop, hr]⟩
    | ok ev =>
      obtain ⟨answers, h1, h2, h3, h4, h5⟩ := ih (events ++ ev.Items)
        { w with eventsLists := w.eventsLists ++ [(cal, morning, night, Reply.ok ev)] }
      refine ⟨Reply.ok ev :: answers, by simpa using h1, ?_, ?_, ?_, ?_⟩
      · simp only [calendarapi.Client.listLoop, hr, h2]
        simp
      · simp only [calendarapi.Client.listLoop, hr, h3]
      · intro h
        have hrest : ∀ r ∈ answers, r.failed = false :=
          fun r hr2 => h r (List.mem_cons_of_mem _ hr2)
        obtain ⟨hlen, hres⟩ := h4 hrest
        refine ⟨by simp [hlen], ?_⟩
        simp only [calendarapi.Client.listLoop, hr, hres]
        simp [Reply.items]
      · rintro ⟨r, hmem, hfail⟩
        rcases List.mem_cons.mp hmem with rfl | hmem
        · simp [Reply.failed] at hfail
        · obtain ⟨err, herr⟩ := h5 ⟨r, hmem, hfail⟩
          exact ⟨err, by simp only [calendarapi.Client.listLoop, hr, herr]⟩

theorem ListEvents_world (env : Env) (c : calendarapi.Client) (w : World) :
    (c.ListEvents env w).2 =
      (c.listLoop (env.startOfDay w c.Config.TimeZone) (env.endOfDay w c.Config.TimeZone)
        c.Config.Calendars [] w).2 := by
  unfold calendarapi.Client.ListEvents
  simp only []
  split <;> rename_i h <;> simp [h]

theorem ListEvents_result (env : Env) (c : calendarapi.Client) (w : World) :
    (c.ListEvents env w).1 =
      ((c.listLoop (env.startOfDay w c.Config.TimeZone) (env.endOfDay w c.Config.TimeZone)
          c.Config.Calendars [] w).1.1,
        (c.listLoop (env.startOfDay w c.Config.TimeZone) (env.endOfDay w c.Config.TimeZone)
          c.Config.Calendars [] w).1.2.map fun err => "list event from calendars: " ++ err) := by
  unfold calendarapi.Client.ListEvents
  simp only []
  split <;> rename_i h <;> simp [h]

theorem withQueries_nil (w : World) : w.withQueries [] = w := by
  cases w
  simp [World.withQueries]

theorem withQueries_withQueries (w : World)
    (e1 e2 : List (String × String × String × Reply Events)) :
    (w.withQueries e1).withQueries e2 = w.withQueries (e1 ++ e2) := by
  simp [World.withQueries, List.append_assoc]

/-- The loop of `ListEvents`, with every recorded answer tied to the calendar
service: the `k`-th answer is what the service answered for the `k`-th calendar
in the world holding the first `k` queries, and a failed answer is the last. -/
theorem listLoop_answers (c : calendarapi.Client) (morning night : String)
    (cals : List String) (events : List Event) (w : World) :
    ∃ answers : List (Reply Events),
      answers.length ≤ cals.length ∧
      (c.listLoop morning night cals events w).2 =
        w.withQueries (queryEntries morning night cals answers) ∧
      (∀ k cal r, cals[k]? = some cal → answers[k]? = some r →
        r = c.CalendarClient.EventsList
            (w.withQueries ((queryEntries morning night cals answers).take k))
            cal morning night ∧
        (r.failed = true → k + 1 = answers.length)) ∧
      ((∀ r ∈ answers, r.failed = false) →
        answers.length = cals.length ∧
        (c.listLoop morning night cals events w).1 =
          (events ++ answers.flatMap Reply.items, none)) ∧
      ((∃ r ∈ answers, r.failed = true) →
        ∃ err, (c.listLoop morning night cals events w).1 = ([], some err)) := by
  induction cals generalizing events w with
  | nil =>
    refine ⟨[], by simp, ?_, ?_, ?_, ?_⟩
    · simp [calendarapi.Client.listLoop, queryEntries, withQueries_nil]
    · intro k cal r hc
      simp at hc
    · intro _
      simp [calendarapi.Client.listLoop]
    · intro h
      simp at h
  | cons cal0 cals ih =>
    cases hr : c.CalendarClient.EventsList w cal0 morning night with
    | error err =>
      refine ⟨[Reply.error err], by simp, ?_, ?_, ?_, ?_⟩
      · simp [calendarapi.Client.listLoop, hr, queryEntries, World.withQueries]
      · intro k cal r hc ha
        cases k with
        | zero =>
          simp only [List.getElem?_cons_zero, Option.some.injEq] at hc ha
          subst hc
          subst ha
          simp [withQueries_nil, hr]
        | succ k => simp at ha
      · intro h
        have := h (Reply.error err) (List.mem_singleton.mpr rfl)
        simp [Reply.failed] at this
      · intro _
        exact ⟨err, by simp [calendarapi.Client.listLoop, hr]⟩
    | ok ev =>
      obtain ⟨answers, h1, h2, h3, h4, h5⟩ := ih (events ++ ev.Items)
        (w.withQueries [(cal0, morning, night, Reply.ok ev)])
      have hentries : queryEntries morning night (cal0 :: cals) (Reply.ok ev :: answers) =
          (cal0, morning, night, Reply.ok ev) :: queryEntries morning night cals answers := by
        simp [queryEntries]
      refine ⟨Reply.ok ev :: answers, by simpa using h1, ?_, ?_, ?_, ?_⟩
      · have hstep : (c.listLoop morning night (cal0 :: cals) events w).2 =
            (c.listLoop morning night cals (events ++ ev.Items)
              (w.withQueries [(cal0, morning, night, Reply.ok ev)])).2 := by
          simp only [calendarapi.Client.listLoop, hr, World.withQueries]
        rw [hstep, h2, withQueries_withQueries, hentries]
        rfl
      · intro k cal r hc ha
        cases k with
        | zero =>
          simp only [List.getElem?_cons_zero, Option.some.injEq] at hc ha
          subst hc
          subst ha
          simp [withQueries_nil, hr, Reply.failed]
        | succ k =>
          simp only [List.getElem?_cons_succ] at hc ha
          obtain ⟨e1, e2⟩ := h3 k cal r hc ha
          refine ⟨?_, fun hf => by simpa using e2 hf⟩
          rw [hentries, List.take_succ_cons]
          rw [withQueries_withQueries] at e1
          exact e1
      · intro h
        have hrest : ∀ r ∈ answers, r.failed = false :=
          fun r hr2 => h r (List.mem_cons_of_mem _ hr2)
        obtain ⟨hlen, hres⟩ := h4 hrest
        refine ⟨by simp [hlen], ?_⟩
        have hstep : (c.listLoop morning night (cal0 :: cals) events w).1 =
            (c.listLoop morning night cals (events ++ ev.Items)
              (w.withQueries [(cal0, morning, night, Reply.ok ev)])).1 := by
          simp only [calendarapi.Client.listLoop, hr, World.withQueries]
        rw [hstep, hres]
        simp [Reply.items]
      · rintro ⟨r, hmem, hfail⟩
        rcases List.mem_cons.mp hmem with rfl | hmem
        · simp [Reply.failed] at hfail
        · obtain ⟨err, herr⟩ := h5 ⟨r, hmem, hfail⟩
          refine ⟨err, ?_⟩
          have hstep : (c.listLoop morning night (cal0 :: cals) events w).1 =
              (c.listLoop morning night cals (events ++ ev.Items)
                (w.withQueries [(cal0, morning, night, Reply.ok ev)])).1 := by
            simp only [calendarapi.Client.listLoop, hr, World.withQueries]
          rw [hstep, herr]

/-- C9: `ListEvents` queries the configured calendars in list order: the `k`-th
query goes to the `k`-th calendar, and the `k`-th answer is what the calendar
service answered to it, in the world holding the queries made before; a failed
answer ends the querying.  If every query succeeds, all calendars are queried
and the result is the concatenation of the answered item lists in that order,
with no error; if a query fails, the result is no events at all and an error. -/
theorem ListEvents_concat_or_abort (env : Env) (c : calendarapi.Client) (w : World) :
    ∃ answers : List (Reply Events),
      answers.length ≤ c.Config.Calendars.length ∧
      (c.ListEvents env w).2 =
        w.withQueries
          (queryEntries (env.startOfDay w c.Config.TimeZone) (env.endOfDay w c.Config.TimeZone)
            c.Config.Calendars answers) ∧
      (∀ k cal r, c.Config.Calendars[k]? = some cal → answers[k]? = some r →
        r = c.CalendarClient.EventsList
            (w.withQueries
              ((queryEntries (env.startOfDay w c.Config.TimeZone)
                (env.endOfDay w c.Config.TimeZone) c.Config.Calendars answers).take k))
            cal (env.startOfDay w c.Config.TimeZone) (env.endOfDay w c.Config.TimeZone) ∧
        (r.failed = true → k + 1 = answers.length)) ∧
      ((∀ r ∈ answers, r.failed = false) →
        answers.length = c.Config.Calendars.length ∧
        (c.ListEvents env w).1 = (answers.flatMap Reply.items, none)) ∧
      ((∃ r ∈ answers, r.failed = true) →
        ∃ err, (c.ListEvents env w).1 = ([], some err)) := by
  obtain ⟨answers, h1, h2, h3, h4, h5⟩ :=
    listLoop_answers c (env.startOfDay w c.Config.TimeZone) (env.endOfDay w c.Config.TimeZone)
      c.Config.Calendars [] w
  refine ⟨answers, h1, ?_, h3, ?_, ?_⟩
  · rw [ListEvents_world, h2]
  · intro h
    obtain ⟨hlen, hres⟩ := h4 h
    refine ⟨hlen, ?_⟩
    rw [ListEvents_result, hres]
    simp
  · intro h
    obtain ⟨err, herr⟩ := h5 h
    refine ⟨"list event from calendars: " ++ err, ?_⟩
    rw [ListEvents_result, herr]
    simp

theorem listLoop_stable (c : calendarapi.Client) (morning night : String)
    (hStable : ∀ w1 w2 cal a b,
      c.CalendarClient.EventsList w1 cal a b = c.CalendarClient.EventsList w2 cal a b)
    (w0 : World) (cals : List String) (events : List Event) (w : World) :
    ((∀ cal ∈ cals, (c.CalendarClient.EventsList w0 cal morning night).failed = false) →
      (c.listLoop morning night cals events w).1 =
        (events ++ cals.flatMap (fun cal =>
          (c.CalendarClient.EventsList w0 cal morning night).items), none)) ∧
    ((∃ cal ∈ cals, (c.CalendarClient.EventsList w0 cal morning night).failed = true) →
      ∃ err, (c.listLoop morning night cals events w).1 = ([], some err)) := by
  induction cals generalizing events w with
  | nil => exact ⟨fun _ => by simp [calendarapi.Client.listLoop], fun h => by simp at h⟩
  | cons cal0 cals ih =>
    have hw : c.CalendarClient.EventsList w cal0 morning night =
        c.CalendarClient.EventsList w0 cal0 morning night := hStable _ _ _ _ _
    cases hr : c.CalendarClient.EventsList w0 cal0 morning night with
    | error err =>
      rw [hr] at hw
      refine ⟨fun h => ?_, fun _ => ⟨err, by simp [calendarapi.Client.listLoop, hw]⟩⟩
      have := h cal0 (List.mem_cons_self _ _)
      simp [hr, Reply.failed] at this
    | ok ev =>
      rw [hr] at hw
      obtain ⟨ih1, ih2⟩ := ih (events ++ ev.Items)
        { w with eventsLists := w.eventsLists ++ [(cal0, morning, night, Reply.ok ev)] }
      constructor
      · intro h
        have hrest := ih1 fun cal hc => h cal (List.mem_cons_of_mem _ hc)
        simp only [calendarapi.Client.listLoop, hw, hrest]
        simp [hr, Reply.items]
      · rintro ⟨cal, hc, hf⟩
        rcases List.mem_cons.mp hc with rfl | hc
        · simp [hr, Reply.failed] at hf
        · obtain ⟨err, herr⟩ := ih2 ⟨cal, hc, hf⟩
          exact ⟨err, by simp only [calendarapi.Client.listLoop, hw, herr]⟩

/-- For a calendar service whose answers do not depend on the history: if every
configured calendar answers with success, `ListEvents` returns the
concatenation of their item lists in the configured order and no error; if some
configured calendar answers with a failure, it returns no events and an error. -/
theorem ListEvents_stable_service (env : Env) (c : calendarapi.Client) (w : World)
    (hStable : ∀ w1 w2 cal a b,
      c.CalendarClient.EventsList w1 cal a b = c.CalendarClient.EventsList w2 cal a b) :
    ((∀ cal ∈ c.Config.Calendars,
        (c.CalendarClient.EventsList w cal (env.startOfDay w c.Config.TimeZone)
          (env.endOfDay w c.Config.TimeZone)).failed = false) →
      (c.ListEvents env w).1 =
        (c.Config.Calendars.flatMap (fun cal =>
          (c.CalendarClient.EventsList w cal (env.startOfDay w c.Config.TimeZone)
            (env.endOfDay w c.Config.TimeZone)).items), none)) ∧
    ((∃ cal ∈ c.Config.Calendars,
        (c.CalendarClient.EventsList w cal (env.startOfDay w c.Config.TimeZone)
          (env.endOfDay w c.Config.TimeZone)).failed = true) →
      ∃ err, (c.ListEvents env w).1 = ([], some err)) := by
  obtain ⟨h1, h2⟩ := listLoop_stable c (env.startOfDay w c.Config.TimeZone)
    (env.endOfDay w c.Config.TimeZone) hStable w c.Config.Calendars [] w
  constructor
  · intro h
    rw [ListEvents_result, h1 h]
    simp
  · intro h
    obtain ⟨err, herr⟩ := h2 h
    refine ⟨"list event from calendars: " ++ err, ?_⟩
    rw [ListEvents_result, herr]
    simp

/-- Two sources that both answer: their items, in source order, and no error. -/
theorem ListEvents_stable_service_witness :
    ((sourcesClient ["work", "home"]).ListEvents sampleEnv World.empty).1 =
      ([meeting, badStart], none) :=
  ((ListEvents_stable_service sampleEnv (sourcesClient ["work", "home"]) World.empty
    (fun _ _ _ _ _ => rfl)).1 (by decide)).trans (by decide)

/-- A failing source between two that answer: no events at all, an error, and
no query after the failed one. -/
theorem ListEvents_failing_source :
    (sourcesClient ["work", "gone", "home"]).ListEvents sampleEnv World.empty =
      (([], some "list event from calendars: not found"),
        World.empty.withQueries
          [ ("work", "2024-05-01T00:00:00Z", "2024-05-01T23:59:59Z",
              Reply.ok { Items := [meeting] }),
            ("gone", "2024-05-01T00:00:00Z", "2024-05-01T23:59:59Z",
              Reply.error "not found") ]) := by
  decide

/-! ## The run orchestrator -/

/-- `EnsureDatabase` fetches no events and inserts no row. -/
theorem EnsureDatabase_frame (c : notionapi.Client) (w : World) (r : String × Option String)
    (w' : World) (h : c.EnsureDatabase w = Outcome.ret r w') :
    w'.eventsLists = w.eventsLists ∧ w'.pageCreates = w.pageCreates := by
  unfold notionapi.Client.EnsureDatabase at h
  simp only [] at h
  split at h
  · cases h
  · split at h
    · cases h; exact ⟨rfl, rfl⟩
    · split at h
      · cases h; exact ⟨rfl, rfl⟩
      · split at h <;> (cases h; exact ⟨rfl, rfl⟩)

/-- `ListEvents` inserts no row. -/
theorem ListEvents_frame (env : Env) (c : calendarapi.Client) (w : World) :
    (c.ListEvents env w).2.pageCreates = w.pageCreates := by
  obtain ⟨_, _, _, h3, _, _⟩ :=
    listLoop_spec c (env.startOfDay w c.Config.TimeZone) (env.endOfDay w c.Config.TimeZone)
      c.Config.Calendars [] w
  rw [ListEvents_world, h3]

/-- The control flow of `Run`, case by case: a failed `EnsureDatabase` is
returned at once, before any event is fetched or row inserted; a failed
`ListEvents` is returned before any row is inserted; otherwise `PutEvents` is
called with the title name `EnsureDatabase` returned and the fetched events, and
`Run` returns nil when `PutEvents` returns, and panics when `PutEvents` panics. -/
theorem Run_cases (env : Env) (a : app.App) (w : World) :
    (∀ title err w1, a.NotionAPI.EnsureDatabase (w.info "running") =
        Outcome.ret (title, some err) w1 →
      a.Run env w = Outcome.ret (some err) w1 ∧
        w1.eventsLists = w.eventsLists ∧ w1.pageCreates = w.pageCreates) ∧
    (∀ title w1, a.NotionAPI.EnsureDatabase (w.info "running") =
        Outcome.ret (title, none) w1 →
      (∀ events err w2, a.CalendarAPI.ListEvents env w1 = ((events, some err), w2) →
        a.Run env w = Outcome.ret (some err) w2 ∧ w2.pageCreates = w.pageCreates) ∧
      (∀ events w2, a.CalendarAPI.ListEvents env w1 = ((events, none), w2) →
        (∀ w3, a.NotionAPI.PutEvents env title events w2 = Outcome.ret () w3 →
          a.Run env w = Outcome.ret none (w3.info "stopped")) ∧
        (a.NotionAPI.PutEvents env title events w2 = Outcome.crash →
          a.Run env w = Outcome.crash))) := by
  refine ⟨?_, ?_⟩
  · intro title err w1 h
    obtain ⟨f1, f2⟩ := EnsureDatabase_frame _ _ _ _ h
    exact ⟨by simp [app.App.Run, h], f1, f2⟩
  · intro title w1 h
    obtain ⟨_, f2⟩ := EnsureDatabase_frame _ _ _ _ h
    refine ⟨?_, ?_⟩
    · intro events err w2 hl
      have f3 := ListEvents_frame env a.CalendarAPI w1
      rw [hl] at f3
      exact ⟨by simp [app.App.Run, h, hl], f3.trans f2⟩
    · intro events w2 hl
      exact ⟨fun w3 hp => by simp [app.App.Run, h, hl, hp],
        fun hp => by simp [app.App.Run, h, hl, hp]⟩

/-- `Run` returns an error exactly when `EnsureDatabase` returns one, or
`EnsureDatabase` succeeds and `ListEvents` returns one. -/
theorem Run_error_iff (env : Env) (a : app.App) (w : World) (err : String) (w' : World) :
    a.Run env w = Outcome.ret (some err) w' ↔
      (∃ title, a.NotionAPI.EnsureDatabase (w.info "running") =
        Outcome.ret (title, some err) w') ∨
      (∃ title w1 events, a.NotionAPI.EnsureDatabase (w.info "running") =
          Outcome.ret (title, none) w1 ∧
        a.CalendarAPI.ListEvents env w1 = ((events, some err), w')) := by
  constructor
  · intro h
    unfold app.App.Run at h
    simp only [] at h
    split at h
    · cases h
    · rename_i t e w1 he
      cases h
      exact Or.inl ⟨t, he⟩
    · rename_i t w1 he
      split at h
      · rename_i evs e w2 hl
        cases h
        exact Or.inr ⟨t, w1, evs, he, hl⟩
      · split at h <;> cases h
  · rintro (⟨t, h⟩ | ⟨t, w1, evs, h, hl⟩)
    · simp [app.App.Run, h]
    · simp [app.App.Run, h, hl]

theorem EnsureDatabase_ret_getDBId (c : notionapi.Client) (w : World)
    (r : String × Option String) (w' : World) (h : c.EnsureDatabase w = Outcome.ret r w') :
    ∃ Id, getDBId c.Config.DBLink = some Id := by
  cases hId : getDBId c.Config.DBLink with
  | none => simp [notionapi.Client.EnsureDatabase, hId] at h
  | some Id => exact ⟨Id, rfl⟩

/-- When `EnsureDatabase` and `ListEvents` both succeed and every fetched event
carries `Start` and `End` records, `Run` returns nil, however many per-event
writes fail, after `PutEvents` has processed exactly the fetched events under
the title name `EnsureDatabase` returned. -/
theorem Run_returns_nil (env : Env) (a : app.App) (w w1 w2 : World) (title : String)
    (events : List Event)
    (hEnsure : a.NotionAPI.EnsureDatabase (w.info "running") = Outcome.ret (title, none) w1)
    (hList : a.CalendarAPI.ListEvents env w1 = ((events, none), w2))
    (hRec : ∀ e ∈ events, e.Start ≠ none ∧ e.End ≠ none) :
    ∃ w3 Id, getDBId a.NotionAPI.Config.DBLink = some Id ∧
      a.NotionAPI.PutEvents env title events w2 = Outcome.ret () w3 ∧
      a.Run env w = Outcome.ret none (w3.info "stopped") ∧
      w3.inserts = w2.inserts ++ events.filterMap (fun e =>
        (parsedTimes env e).map fun t => notionapi.pageRequest Id title e t.1 t.2) := by
  obtain ⟨Id, hId⟩ := EnsureDatabase_ret_getDBId _ _ _ _ hEnsure
  obtain ⟨w3, h1, h2, _⟩ :=
    PutEvents_isolates_failures env a.NotionAPI title Id events w2 hId hRec
  exact ⟨w3, Id, hId, h1, ((Run_cases env a w).2 title w1 hEnsure).2 events w2 hList |>.1 w3 h1,
    h2⟩

/-- C5, failing input: `EnsureDatabase` succeeds with the title name `Name`,
`ListEvents` succeeds with one event that has no `Start` record, and the unit
of work of that event panics, which ends the process: the per-event failure
aborts the run, and in the list-order schedule `Run` has not returned. -/
theorem Run_missing_record_panics :
    (∃ w1, (sampleApp nameOnly [cancelledInstance]).NotionAPI.EnsureDatabase
          (World.empty.info "running") = Outcome.ret ("Name", none) w1 ∧
        ((sampleApp nameOnly [cancelledInstance]).CalendarAPI.ListEvents sampleEnv w1).1 =
          ([cancelledInstance], none)) ∧
    (sampleApp nameOnly [cancelledInstance]).Run sampleEnv World.empty = Outcome.crash := by
  refine ⟨⟨_, rfl, ?_⟩, ?_⟩ <;> decide

/-! ## Instances of the supporting theorems -/

/-- The complete table with the extra column `Notes`: one update, deleting it. -/
theorem EnsureDatabase_complete_schema_extras_deleted_witness :
    ∃ r w' req e, (sampleClient completeWithNotes).EnsureDatabase World.empty =
        Outcome.ret r w' ∧
      w'.databaseUpdates = World.empty.databaseUpdates ++ [("abc", req, e)] ∧
      ∀ k, (∀ cfg, mapGet req.Properties k ≠ some (some cfg)) ∧
        (mapGet req.Properties k = some none ↔
          k ∉ requiredProps ∧ ∃ v, (k, v) ∈ completeWithNotes.Properties ∧
            v.GetType ≠ PropertyConfigTypeTitle) :=
  EnsureDatabase_complete_schema_extras_deleted (sampleClient completeWithNotes) World.empty
    "abc" completeWithNotes (by decide) rfl (by decide)
    ⟨("Notes", PropertyConfig.RichTextPropertyConfig PropertyConfigTypeRichText),
      by decide, by decide, by decide⟩

/-- The fresh table with the title column `Name`: the title name is detected. -/
theorem EnsureDatabase_title_detected_witness :
    ∃ w', (sampleClient nameOnly).EnsureDatabase World.empty = Outcome.ret ("Name", none) w' :=
  EnsureDatabase_title_detected (sampleClient nameOnly) World.empty "abc" nameOnly "Name"
    (by decide) rfl (fun _ _ => rfl) ⟨"Task", by decide, by decide⟩
    ⟨("Name", PropertyConfig.TitlePropertyConfig PropertyConfigTypeTitle), by decide, rfl, rfl⟩
    (by decide) (by decide)

/-- A parsable event followed by one with an unparsable start: one insert, one
warning. -/
theorem PutEvents_isolates_failures_witness :
    ∃ w', (sampleClient nameOnly).PutEvents sampleEnv "Name" [meeting, badStart] World.empty =
        Outcome.ret () w' ∧
      w'.inserts = World.empty.inserts ++ [meeting, badStart].filterMap (fun e =>
        (parsedTimes sampleEnv e).map fun t => notionapi.pageRequest "abc" "Name" e t.1 t.2) ∧
      w'.warnings.length + World.empty.failedInserts =
        World.empty.warnings.length +
          ([meeting, badStart].filter fun e => (parsedTimes sampleEnv e).isNone).length +
          w'.failedInserts :=
  PutEvents_isolates_failures sampleEnv (sampleClient nameOnly) "Name" "abc"
    [meeting, badStart] World.empty (by decide) (by decide)

/-- An all-day event, whose `DateTime` strings are empty, is refused with an error. -/
theorem PutEvent_empty_DateTime_is_error_witness :
    ∃ err w', (sampleClient nameOnly).PutEvent sampleEnv "Name" Event.blank World.empty =
        Outcome.ret (some err) w' ∧
      w'.pageCreates = World.empty.pageCreates :=
  PutEvent_empty_DateTime_is_error sampleEnv (sampleClient nameOnly) "Name" Event.blank
    World.empty { DateTime := "" } { DateTime := "" } (by decide) rfl rfl (Or.inl rfl)

/-- A run over a parsable event and one with an unparsable start returns nil. -/
theorem Run_returns_nil_witness :
    ∃ w3 Id, getDBId (sampleApp nameOnly [meeting, badStart]).NotionAPI.Config.DBLink = some Id ∧
      (sampleApp nameOnly [meeting, badStart]).NotionAPI.PutEvents sampleEnv "Name"
          [meeting, badStart]
          ((sampleApp nameOnly [meeting, badStart]).CalendarAPI.ListEvents sampleEnv
            { (World.empty.info "running").info "ensuring database" with
              databaseGets := [("abc", Reply.ok nameOnly)],
              databaseUpdates := [("abc", { Properties := baselineConfs }, none)] }).2 =
        Outcome.ret () w3 ∧
      (sampleApp nameOnly [meeting, badStart]).Run sampleEnv World.empty =
        Outcome.ret none (w3.info "stopped") ∧
      w3.inserts =
        ((sampleApp nameOnly [meeting, badStart]).CalendarAPI.ListEvents sampleEnv
            { (World.empty.info "running").info "ensuring database" with
              databaseGets := [("abc", Reply.ok nameOnly)],
              databaseUpdates := [("abc", { Properties := baselineConfs }, none)] }).2.inserts ++
          [meeting, badStart].filterMap (fun e =>
            (parsedTimes sampleEnv e).map fun t =>
              notionapi.pageRequest Id "Name" e t.1 t.2) :=
  Run_returns_nil sampleEnv (sampleApp nameOnly [meeting, badStart]) World.empty
    { (World.empty.info "running").info "ensuring database" with
      databaseGets := [("abc", Reply.ok nameOnly)],
      databaseUpdates := [("abc", { Properties := baselineConfs }, none)] }
    _ "Name" [meeting, badStart] (by decide) rfl (by decide)

/-! ## The place of the heading in a section -/

/-- C11, as stated, fails: for the event `describedOnly` the description section
is present, it is the whole output of `parseEventBody`, and its last block is
the paragraph holding the description, which is not a heading block. -/
theorem description_section_ends_with_paragraph :
    describedOnly.Description ≠ "" ∧
    parseEventBody describedOnly = parseDescription describedOnly ∧
    (parseDescription describedOnly).getLast? = some (paragraph "D") ∧
    headingText (paragraph "D") = none ∧
    (parseDescription describedOnly).getLast? ≠ some (heading "Description") := by
  refine ⟨by decide, by decide, by decide, rfl, by decide⟩

/-- C11, amended: the output of `parseEventBody` is the concatenation of the
present sections, and every section begins with its own heading block, which
is its only heading block: `Description`, `Attendees`, the linked `Join Google
Meet`, `Location`, `Attachments`.  The meeting-link section is that heading
alone. -/
theorem sections_begin_with_own_heading (event : Event) :
    parseEventBody event =
        sectionIf (event.Description ≠ "") (parseDescription event) ++
        sectionIf (event.Attendees ≠ []) (parseAttendees event) ++
        sectionIf (event.HangoutLink ≠ "") (parseMeeting event) ++
        sectionIf (event.Location ≠ "") (parseLocation event) ++
        sectionIf (event.Attachments ≠ []) (parseAttachments event)
    ∧ ((parseDescription event).head? = some (heading "Description") ∧
        headings (parseDescription event).tail = [])
    ∧ ((parseAttendees event).head? = some (heading "Attendees") ∧
        headings (parseAttendees event).tail = [])
    ∧ parseMeeting event = [meetingHeading event.HangoutLink]
    ∧ ((parseLocation event).head? = some (heading "Location") ∧
        headings (parseLocation event).tail = [])
    ∧ ((parseAttachments event).head? = some (heading "Attachments") ∧
        headings (parseAttachments event).tail = []) := by
  refine ⟨parseEventBody_concat event, ⟨rfl, rfl⟩, ⟨?_, ?_⟩, rfl, ⟨rfl, rfl⟩, ⟨?_, ?_⟩⟩
  · rw [parseAttendees_map]; rfl
  · rw [parseAttendees_map]
    simp only [List.tail_cons, headings_append, headings_map_bulleted, List.append_nil]
    cases event.AttendeesOmitted <;> simp [headings, paragraph, headingText]
  · rw [parseAttachments_map]; rfl
  · rw [parseAttachments_map]
    simp only [List.tail_cons, headings_map_attachmentFile]

/-- What the sections end with: the description and location sections end with
their paragraph, the attendees section with the bullet of the last attendee, the
attachments section with the file block of the last attachment; none of these
is a heading block. -/
theorem sections_end_with_body_block (event : Event)
    (hA : event.Attendees ≠ []) (hF : event.Attachments ≠ []) :
    (parseDescription event).getLast? = some (paragraph event.Description) ∧
    (parseLocation event).getLast? = some (paragraph event.Location) ∧
    (∃ a, event.Attendees.getLast? = some a ∧
      (parseAttendees event).getLast? = some (bulleted (attendeeLine a))) ∧
    (∃ att, event.Attachments.getLast? = some att ∧
      (parseAttachments event).getLast? = some (attachmentFile att)) := by
  refine ⟨rfl, rfl, ?_, ?_⟩
  · rcases List.eq_nil_or_concat event.Attendees with h | ⟨init, a, h⟩
    · exact absurd h hA
    · rw [List.concat_eq_append] at h
      refine ⟨a, by simp [h], ?_⟩
      rw [parseAttendees_map, h]
      have : heading "Attendees" ::
          ((if event.AttendeesOmitted then [paragraph "Attendees omitted..."] else []) ++
            (init ++ [a]).map fun a => bulleted (attendeeLine a)) =
          (heading "Attendees" ::
            ((if event.AttendeesOmitted then [paragraph "Attendees omitted..."] else []) ++
              init.map fun a => bulleted (attendeeLine a))) ++ [bulleted (attendeeLine a)] := by
        simp
      rw [this, List.getLast?_concat]
  · rcases List.eq_nil_or_concat event.Attachments with h | ⟨init, att, h⟩
    · exact absurd h hF
    · rw [List.concat_eq_append] at h
      refine ⟨att, by simp [h], ?_⟩
      rw [parseAttachments_map, h]
      have : heading "Attachments" :: (init ++ [att]).map attachmentFile =
          (heading "Attachments" :: init.map attachmentFile) ++ [attachmentFile att] := by
        simp
      rw [this, List.getLast?_concat]

/-- An instance: one attendee and one attachment. -/
theorem sections_end_with_body_block_witness :
    (parseDescription
        { Event.blank with
          Attendees := [ { DisplayName := "", Email := "b@x.com", Organizer := false } ],
          Attachments := [ { FileUrl := "https://x.com/f", Title := "f" } ] }).getLast? =
      some (paragraph "") ∧
    (parseLocation
        { Event.blank with
          Attendees := [ { DisplayName := "", Email := "b@x.com", Organizer := false } ],
          Attachments := [ { FileUrl := "https://x.com/f", Title := "f" } ] }).getLast? =
      some (paragraph "") ∧
    (∃ a, [ ({ DisplayName := "", Email := "b@x.com", Organizer := false } : EventAttendee)
          ].getLast? = some a ∧
      (parseAttendees
        { Event.blank with
          Attendees := [ { DisplayName := "", Email := "b@x.com", Organizer := false } ],
          Attachments := [ { FileUrl := "https://x.com/f", Title := "f" } ] }).getLast? =
        some (bulleted (attendeeLine a))) ∧
    (∃ att, [ ({ FileUrl := "https://x.com/f", Title := "f" } : EventAttachment)
          ].getLast? = some att ∧
      (parseAttachments
        { Event.blank with
          Attendees := [ { DisplayName := "", Email := "b@x.com", Organizer := false } ],
          Attachments := [ { FileUrl := "https://x.com/f", Title := "f" } ] }).getLast? =
        some (attachmentFile att)) :=
  sections_end_with_body_block
    { Event.blank with
      Attendees := [ { DisplayName := "", Email := "b@x.com", Organizer := false } ],
      Attachments := [ { FileUrl := "https://x.com/f", Title := "f" } ] }
    (by decide) (by decide)

end GCalNotion
